import Mathlib
/-!
Verification of the message-archive access layer (`lib.ts`) of the `aimc`
CLI against its natural-language specification.

The source is a TypeScript program reading an iMessage SQLite archive.  The
shallow embedding below translates the pure computational content of the
source into Lean:

* JS `number` arithmetic in the timestamp codec is modelled exactly over `ℚ`
  (all values involved are far from overflow and the claims are about the
  arithmetic relations, not double rounding);
* byte buffers (`Uint8Array` / `Buffer`) are lists of naturals, each entry a
  byte value;
* JS 32-bit bitwise operators (`|`, `<<`) in the length decoder are modelled
  with explicit mod-2^32 patterns and a final signed reinterpretation;
* the SQLite relational store is modelled as lists of table rows, the SQL
  queries of the source as list transformations (LEFT/INNER joins as
  `flatMap`/`find?`, `ORDER BY` as a stable insertion sort, `LIMIT` as
  `take`);
* the ambient filesystem used for attachment resolution is passed explicitly
  as a `FileSystem` value.
-/

namespace Aimc

/-! ### Timestamp codec (`appleTimestampToDate` / `dateToAppleTimestamp`) -/
/-- The fixed offset between the Unix epoch and the archive's native epoch
(2001-01-01T00:00:00Z), in seconds.  Source: `APPLE_EPOCH_OFFSET`. -/
def APPLE_EPOCH_OFFSET : ℚ := 978307200

/-- Translation of `appleTimestampToDate`: a raw native timestamp is treated
as nanoseconds since the native epoch when it exceeds `1e15`, and as seconds
otherwise; the result is the Unix-epoch millisecond value stored in the
returned JS `Date`. -/
def appleTimestampToDate (timestamp : ℚ) : ℚ :=
  let seconds : ℚ := if timestamp > 1e15 then timestamp / 1e9 else timestamp
  (seconds + APPLE_EPOCH_OFFSET) * 1000

/-- Translation of `dateToAppleTimestamp`: a JS `Date` (Unix-epoch
milliseconds) is converted to nanoseconds since the native epoch. -/
def dateToAppleTimestamp (date : ℚ) : ℚ :=
  (date / 1000 - APPLE_EPOCH_OFFSET) * 1e9

/-- The spec's "nanoseconds since the native epoch" reading of a raw value,
as an absolute Unix-epoch millisecond value. -/
def nanoInterpretation (raw : ℚ) : ℚ := (raw / 1e9 + APPLE_EPOCH_OFFSET) * 1000

/-- The spec's "seconds since the native epoch" reading of a raw value. -/
def secondsInterpretation (raw : ℚ) : ℚ := (raw + APPLE_EPOCH_OFFSET) * 1000

/-- The spec's "seconds since the native epoch" of an absolute timestamp
(Unix-epoch milliseconds). -/
def secondsSinceNativeEpoch (t : ℚ) : ℚ := t / 1000 - APPLE_EPOCH_OFFSET

/-! ### UTF-8 codec

Modelled from the spec: `Buffer.from(text, "utf-8")` and
`buf.toString("utf-8")` are host-library primitives, specified as "the text
run bytes are decoded as UTF-8 (must correctly handle multi-byte code
points, including 4-byte sequences)".  `utf8EncodeChar` is the standard
UTF-8 encoding of a code point; `utf8DecodeChars` is the inverse scanner.
The host decoder's lossy replacement-character behaviour on runs that are
not valid UTF-8 is not modelled (no claim exercises it): such runs decode
to `none`. -/
/-- UTF-8 encoding of a single code point as a list of byte values. -/
def utf8EncodeChar (c : Char) : List Nat :=
  if c.toNat < 0x80 then [c.toNat]
  else if c.toNat < 0x800 then
    [0xC0 + c.toNat / 64, 0x80 + c.toNat % 64]
  else if c.toNat < 0x10000 then
    [0xE0 + c.toNat / 4096, 0x80 + c.toNat / 64 % 64, 0x80 + c.toNat % 64]
  else
    [0xF0 + c.toNat / 262144, 0x80 + c.toNat / 4096 % 64,
     0x80 + c.toNat / 64 % 64, 0x80 + c.toNat % 64]

/-- UTF-8 encoding of a string as a list of byte values (the model of
`Buffer.from(s, "utf-8")`). -/
def utf8Encode (s : String) : List Nat :=
  s.data.flatMap utf8EncodeChar

/-- UTF-8 decoding of a single code point from the head of a byte list,
returning the code point and the remaining bytes; `none` on a malformed
lead/continuation shape. -/
def utf8DecodeOne : List Nat → Option (Char × List Nat)
  | [] => none
  | b :: rest =>
    if b < 0x80 then some (Char.ofNat b, rest)
    else if b < 0xC0 then none
    else if b < 0xE0 then
      match rest with
      | b1 :: rest1 => some (Char.ofNat (b % 32 * 64 + b1 % 64), rest1)
      | [] => none
    else if b < 0xF0 then
      match rest with
      | b1 :: b2 :: rest2 =>
        some (Char.ofNat (b % 16 * 4096 + b1 % 64 * 64 + b2 % 64), rest2)
      | _ => none
    else if b < 0xF8 then
      match rest with
      | b1 :: b2 :: b3 :: rest3 =>
        some (Char.ofNat (b % 8 * 262144 + b1 % 64 * 4096 + b2 % 64 * 64 + b3 % 64), rest3)
      | _ => none
    else none

/-- Fuelled UTF-8 decoding loop; every step consumes at least one byte, so
fuel equal to the byte count always suffices. -/
def utf8DecodeLoop : Nat → List Nat → Option (List Char)
  | 0, l => if l.isEmpty then some [] else none
  | fuel + 1, l =>
    if l.isEmpty then some []
    else
      match utf8DecodeOne l with
      | none => none
      | some (c, rest) => (utf8DecodeLoop fuel rest).map (fun cs => c :: cs)

/-- UTF-8 decoding of a list of byte values into code points (the model of
`buf.toString("utf-8")`); `none` on a malformed run. -/
def utf8DecodeChars (l : List Nat) : Option (List Char) :=
  utf8DecodeLoop l.length l

/-! ### Archived-body decoder (`extractTextFromAttributedBody`) -/
/-- Source: `ATTRIBUTED_BODY_TEXT_MARKER = Buffer.from([0x01, 0x2b])`. -/
def ATTRIBUTED_BODY_TEXT_MARKER : List Nat := [0x01, 0x2B]

/-- Translation of `buf.indexOf(ATTRIBUTED_BODY_TEXT_MARKER)` followed by
`offset = markerIndex + 2`: the suffix of the buffer after the first
occurrence of the two marker bytes, or `none` when the marker is absent
(`markerIndex < 0` in the source). -/
def suffixAfterMarker : List Nat → Option (List Nat)
  | [] => none
  | b :: rest =>
    if b = 0x01 then
      match rest with
      | b2 :: rest2 => if b2 = 0x2B then some rest2 else suffixAfterMarker rest
      | [] => none
    else suffixAfterMarker rest

/-- Translation of the JS `|=`/`<<` accumulation
`byteLength |= buf[offset + i]! << (8 * i)` over the length bytes: JS
bitwise operators work on 32-bit values (shift counts are taken mod 32 and
every intermediate is truncated to 32 bits); the accumulator is kept as the
unsigned 32-bit pattern. -/
def lengthOrAccum : List Nat → Nat → Nat → Nat
  | [], _, acc => acc
  | b :: bs, i, acc =>
    lengthOrAccum bs (i + 1) (acc ||| (b * 2 ^ (8 * i % 32)) % 2 ^ 32)

/-- Reinterpretation of an unsigned 32-bit pattern as a signed JS 32-bit
integer, as produced by the `|=` accumulation. -/
def asInt32 (pattern : Nat) : Int :=
  if pattern < 2 ^ 31 then (pattern : Int) else (pattern : Int) - 2 ^ 32

/-- Translation of the declared-length read of
`extractTextFromAttributedBody`, applied to the buffer suffix following the
marker: a first byte below `0x80` is the length itself; otherwise its low 7
bits plus one give the count of little-endian length bytes, with `none`
when the buffer ends before `firstByte` (`offset >= buf.length`) or before
the length bytes (`offset + lengthBytes > buf.length`).  Returns the
(signed 32-bit) declared length and the remaining bytes. -/
def decodeDeclaredLength : List Nat → Option (Int × List Nat)
  | [] => none
  | b :: rest =>
    if b < 0x80 then some ((b : Int), rest)
    else
      let lengthBytes := (b &&& 0x7F) + 1
      if rest.length < lengthBytes then none
      else some (asInt32 (lengthOrAccum (rest.take lengthBytes) 0 0), rest.drop lengthBytes)

/-- Translation of `extractTextFromAttributedBody`: `null`/empty buffers,
buffers without the marker, truncated length reads, non-positive declared
lengths, declared lengths that would read past the end of the buffer, and
empty decoded text all yield `none`; otherwise the declared run is decoded
as UTF-8. -/
def extractTextFromAttributedBody : Option (List Nat) → Option String
  | none => none
  | some buf =>
    if buf.length = 0 then none
    else
      match suffixAfterMarker buf with
      | none => none
      | some s =>
        match decodeDeclaredLength s with
        | none => none
        | some (byteLength, rest) =>
          if byteLength ≤ 0 then none
          else if (rest.length : Int) < byteLength then none
          else
            match utf8DecodeChars (rest.take byteLength.toNat) with
            | none => none
            | some cs => if cs.isEmpty then none else some (String.mk cs)

/-- Modelled from the spec: the little-endian byte encoding (`k` bytes) of
an unsigned length, used by the well-formed archive buffers of the
round-trip property. -/
def leBytes : Nat → Nat → List Nat
  | 0, _ => []
  | k + 1, L => L % 256 :: leBytes k (L / 256)

/-- The value denoted by a little-endian byte list. -/
def leVal : List Nat → Nat
  | [] => 0
  | b :: bs => b + 256 * leVal bs

/-- Modelled from the spec: the well-formed archive buffer of the
round-trip property with a short (single-byte) length encoding — the
2-byte marker, the byte length of the text, then its UTF-8 bytes. -/
def specShortBuffer (s : String) : List Nat :=
  ATTRIBUTED_BODY_TEXT_MARKER ++ [(utf8Encode s).length] ++ utf8Encode s

/-- Modelled from the spec: the well-formed archive buffer of the
round-trip property with a multi-byte length encoding — the 2-byte marker,
a control byte whose low 7 bits plus one give the byte count `k`, the `k`
little-endian bytes of the text's byte length, then its UTF-8 bytes. -/
def specLongBuffer (k : Nat) (s : String) : List Nat :=
  ATTRIBUTED_BODY_TEXT_MARKER ++
    ((0x80 + (k - 1)) :: leBytes k (utf8Encode s).length) ++ utf8Encode s

/-! ### Relational store model

The SQLite archive is modelled as lists of table rows; the fixed schema
follows §6 of the spec and the test fixtures.  `rowid` columns are primary
keys, so the two `LEFT JOIN`s on `h.rowid = m.handle_id` and
`c.rowid = cmj.chat_id` are modelled with `find?`; the genuinely
many-to-many `chat_message_join` and `message_attachment_join` tables are
joined with `flatMap`.  Message `date` values are rationals because the
query layer compares them against the (rational-valued) output of
`dateToAppleTimestamp`. -/
structure HandleRow where
  rowid : Nat
  id : String
deriving DecidableEq

structure ChatTableRow where
  rowid : Nat
  display_name : Option String
  chat_identifier : String
  service_name : String
deriving DecidableEq

structure MessageTableRow where
  rowid : Nat
  guid : String
  text : Option String
  handle_id : Nat
  service : String
  date : ℚ
  is_from_me : Nat
  cache_roomnames : Option String
  attributedBody : Option (List Nat)
deriving DecidableEq

structure ChatMessageJoinRow where
  chat_id : Nat
  message_id : Nat
deriving DecidableEq

structure AttachmentTableRow where
  rowid : Nat
  filename : Option String
  mime_type : Option String
deriving DecidableEq

structure MessageAttachmentJoinRow where
  message_id : Nat
  attachment_id : Nat
deriving DecidableEq

structure DBState where
  message : List MessageTableRow
  chat : List ChatTableRow
  handle : List HandleRow
  chat_message_join : List ChatMessageJoinRow
  attachment : List AttachmentTableRow
  message_attachment_join : List MessageAttachmentJoinRow
deriving DecidableEq

/-- The ambient filesystem used by the attachment resolver (`homedir()` and
`existsSync`), passed explicitly to the embedding. -/
structure FileSystem where
  home : String
  fileExists : String → Bool

/-- Translation of the `AttachmentInfo` interface. -/
structure AttachmentInfo where
  filename : String
  mime_type : Option String
  resolved_path : String
  missing : Bool
deriving DecidableEq

/-- Translation of the `MessageRow` interface returned by every query
operation. -/
structure MessageRow where
  rowid : Nat
  guid : String
  text : Option String
  handle_id : Nat
  service : String
  date : ℚ
  is_from_me : Nat
  cache_roomnames : Option String
  display_name : Option String
  chat_identifier : Option String
  handle : Option String
  attachments : List AttachmentInfo
deriving DecidableEq

/-- Translation of the internal `RawMessageRow` interface (a fetched row
before text hydration and attachment loading). -/
structure RawMessageRow where
  rowid : Nat
  guid : String
  text : Option String
  handle_id : Nat
  service : String
  date : ℚ
  is_from_me : Nat
  cache_roomnames : Option String
  display_name : Option String
  chat_identifier : Option String
  handle : Option String
  attributed_body : Option (List Nat)
deriving DecidableEq

/-- A row of the `MESSAGE_SELECT` join before projection; `chat_id` is the
joined `cmj.chat_id` column, kept because the `WHERE` clauses of
`getChatMessages` and `pollNewMessages` filter on it. -/
structure SelectedRow where
  rowid : Nat
  guid : String
  text : Option String
  handle_id : Nat
  service : String
  date : ℚ
  is_from_me : Nat
  cache_roomnames : Option String
  display_name : Option String
  chat_identifier : Option String
  handle : Option String
  attributed_body : Option (List Nat)
  chat_id : Option Nat
deriving DecidableEq

/-- Projection of a joined row onto the selected columns. -/
def toRawMessageRow (r : SelectedRow) : RawMessageRow :=
  { rowid := r.rowid, guid := r.guid, text := r.text, handle_id := r.handle_id,
    service := r.service, date := r.date, is_from_me := r.is_from_me,
    cache_roomnames := r.cache_roomnames, display_name := r.display_name,
    chat_identifier := r.chat_identifier, handle := r.handle,
    attributed_body := r.attributed_body }

/-- The `LEFT JOIN handle h ON h.rowid = m.handle_id` lookup; `rowid` is
the handle table's primary key, so the join is a `find?`. -/
def resolvedHandle (db : DBState) (m : MessageTableRow) : Option String :=
  (db.handle.find? (fun h => h.rowid == m.handle_id)).map (fun h => h.id)

/-- One joined row of `MESSAGE_SELECT` for message `m`, with the given
chat columns. -/
def selectRowFor (db : DBState) (m : MessageTableRow) (dn ci : Option String)
    (cid : Option Nat) : SelectedRow :=
  { rowid := m.rowid, guid := m.guid, text := m.text,
    handle_id := m.handle_id, service := m.service, date := m.date,
    is_from_me := m.is_from_me, cache_roomnames := m.cache_roomnames,
    display_name := dn, chat_identifier := ci, handle := resolvedHandle db m,
    attributed_body := m.attributedBody, chat_id := cid }

/-- The joined rows of `MESSAGE_SELECT` originating from one message: one
row per `chat_message_join` entry (with the chat columns looked up by the
chat table's primary key), or a single row with null chat columns when the
message is in no chat (`LEFT JOIN`). -/
def selectRowsFor (db : DBState) (m : MessageTableRow) : List SelectedRow :=
  match db.chat_message_join.filter (fun j => j.message_id == m.rowid) with
  | [] => [selectRowFor db m none none none]
  | js =>
    js.map (fun j =>
      let c := db.chat.find? (fun c => c.rowid == j.chat_id)
      selectRowFor db m (c.bind (fun cr => cr.display_name))
        (c.map (fun cr => cr.chat_identifier)) (some j.chat_id))

/-- Translation of the `MESSAGE_SELECT` statement: `message` LEFT JOIN
`chat_message_join` LEFT JOIN `chat` LEFT JOIN `handle`. -/
def messageSelectRows (db : DBState) : List SelectedRow :=
  db.message.flatMap (selectRowsFor db)

/-- The text-hydration rule of `hydrateAttributedBodyText` for one message:
plain text wins; a null text with a present archived-body payload is
replaced by the decode result (which may itself be null). -/
def hydratedText (text : Option String) (ab : Option (List Nat)) : Option String :=
  match text with
  | some t => some t
  | none =>
    match ab with
    | none => none
    | some b => extractTextFromAttributedBody (some b)

/-- Translation of `hydrateAttributedBodyText`: fill in `text` from
`attributedBody` for any message whose `text` is null; attachments start
empty. -/
def hydrateAttributedBodyText (messages : List RawMessageRow) : List MessageRow :=
  messages.map (fun msg =>
    { rowid := msg.rowid, guid := msg.guid,
      text := hydratedText msg.text msg.attributed_body,
      handle_id := msg.handle_id, service := msg.service, date := msg.date,
      is_from_me := msg.is_from_me, cache_roomnames := msg.cache_roomnames,
      display_name := msg.display_name, chat_identifier := msg.chat_identifier,
      handle := msg.handle, attachments := [] })

/-- A row of the attachment-loading query of `loadAttachments`. -/
structure AttachmentRow where
  message_id : Nat
  filename : Option String
  mime_type : Option String
deriving DecidableEq

/-- Translation of the `loadAttachments` SQL:
`message_attachment_join` INNER JOIN `attachment` restricted to
`message_id IN (messageIds)`. -/
def attachmentJoinRows (db : DBState) (messageIds : List Nat) : List AttachmentRow :=
  db.message_attachment_join.flatMap (fun j =>
    if messageIds.contains j.message_id then
      (db.attachment.filter (fun a => a.rowid == j.attachment_id)).map (fun a =>
        { message_id := j.message_id, filename := a.filename,
          mime_type := a.mime_type })
    else [])

/-- Translation of the tilde expansion `row.filename.replace(/^~/, homedir())`. -/
def resolvePath (fs : FileSystem) (filename : String) : String :=
  if filename.startsWith "~" then fs.home ++ filename.drop 1 else filename

/-- The attachment record built for one join row. -/
def mkAttachmentInfo (fs : FileSystem) (f : String) (mime : Option String) :
    AttachmentInfo :=
  { filename := f, mime_type := mime, resolved_path := resolvePath fs f,
    missing := !(fs.fileExists (resolvePath fs f)) }

/-- One step of the `loadAttachments` accumulation loop: a falsy filename
(null or empty) is skipped; otherwise the built record is appended to the
owning message's list.  The `Map` is modelled as a function with default
`[]` (the source's `map.get(id) ?? []`). -/
def loadAttachmentsStep (fs : FileSystem) (m : Nat → List AttachmentInfo)
    (row : AttachmentRow) : Nat → List AttachmentInfo :=
  match row.filename with
  | none => m
  | some f =>
    if f.isEmpty then m
    else fun id =>
      if id = row.message_id then
        m row.message_id ++ [mkAttachmentInfo fs f row.mime_type]
      else m id

/-- Translation of `loadAttachments`: one query keyed by the batch's
message identifiers, folded into a per-message map. -/
def loadAttachments (fs : FileSystem) (db : DBState) (messageIds : List Nat) :
    Nat → List AttachmentInfo :=
  if messageIds.isEmpty then fun _ => []
  else (attachmentJoinRows db messageIds).foldl (loadAttachmentsStep fs) (fun _ => [])

/-- Translation of `attachAttachments`: every message of the batch gets the
map entry for its rowid, or `[]`. -/
def attachAttachments (fs : FileSystem) (db : DBState)
    (messages : List MessageRow) : List MessageRow :=
  let attachmentsByMessage :=
    loadAttachments fs db (messages.map (fun m => m.rowid))
  messages.map (fun m => { m with attachments := attachmentsByMessage m.rowid })

/-- Translation of `processRawMessages`: hydrate archived-body text, then
attach attachments. -/
def processRawMessages (fs : FileSystem) (db : DBState)
    (rawMessages : List RawMessageRow) : List MessageRow :=
  attachAttachments fs db (hydrateAttributedBodyText rawMessages)

/-- The `ORDER BY m.date DESC` ordering on joined rows. -/
def dateDesc (a b : SelectedRow) : Prop := b.date ≤ a.date

instance : DecidableRel dateDesc :=
  fun a b => inferInstanceAs (Decidable (b.date ≤ a.date))

instance : IsTotal SelectedRow dateDesc :=
  ⟨fun a b => le_total b.date a.date⟩

instance : IsTrans SelectedRow dateDesc :=
  ⟨fun _ _ _ hab hbc => le_trans hbc hab⟩

/-- The `ORDER BY m.rowid ASC` ordering on joined rows. -/
def rowidAsc (a b : SelectedRow) : Prop := a.rowid ≤ b.rowid

instance : DecidableRel rowidAsc :=
  fun a b => inferInstanceAs (Decidable (a.rowid ≤ b.rowid))

instance : IsTotal SelectedRow rowidAsc :=
  ⟨fun a b => Nat.le_total a.rowid b.rowid⟩

instance : IsTrans SelectedRow rowidAsc :=
  ⟨fun _ _ _ hab hbc => Nat.le_trans hab hbc⟩

/-- ASCII lowering of one character, as applied by SQLite's `LIKE` for
case-insensitive matching. -/
def asciiLowerChar (c : Char) : Char :=
  if 'A' ≤ c ∧ c ≤ 'Z' then Char.ofNat (c.toNat + 32) else c

/-- Leading-run test: `isLeadingRun needle hay` holds when `needle` is an
initial segment of `hay`. -/
def isLeadingRun : List Char → List Char → Bool
  | [], _ => true
  | _ :: _, [] => false
  | a :: as, b :: bs => a == b && isLeadingRun as bs

/-- Contiguous-run containment of `needle` in `hay`. -/
def containsRun (needle : List Char) : List Char → Bool
  | [] => needle.isEmpty
  | b :: rest => isLeadingRun needle (b :: rest) || containsRun needle rest

/-- Modelled from the spec: SQLite's `column LIKE '%term%'` for a
wildcard-free term is a case-insensitive (ASCII) substring match. -/
def likeContainsString (term s : String) : Bool :=
  containsRun (term.data.map asciiLowerChar) (s.data.map asciiLowerChar)

/-- Modelled from the spec: applying `LIKE` to a BLOB operand coerces the
raw bytes to text, here byte-per-character (faithful for the ASCII payloads
the claims exercise). -/
def blobAsText (bs : List Nat) : String :=
  String.mk (bs.map Char.ofNat)

/-- The `WHERE (m.text LIKE ? OR m.attributedBody LIKE ?)` clause of
`searchMessages`; a null column never matches (SQL `NULL LIKE p` is not
true). -/
def searchCond (term : String) (r : SelectedRow) : Bool :=
  (match r.text with
   | some t => likeContainsString term t
   | none => false) ||
  (match r.attributed_body with
   | some bs => likeContainsString term (blobAsText bs)
   | none => false)

/-- Translation of `getRecentMessages`: the join, ordered newest-first,
limited, then hydrated and attachment-loaded. -/
def getRecentMessages (fs : FileSystem) (db : DBState) (limit : Nat) :
    List MessageRow :=
  processRawMessages fs db
    ((((messageSelectRows db).insertionSort dateDesc).take limit).map toRawMessageRow)

/-- Translation of `searchMessages`: the join filtered by the text-or-blob
`LIKE` clause, ordered newest-first, limited, then processed. -/
def searchMessages (fs : FileSystem) (db : DBState) (term : String)
    (limit : Nat) : List MessageRow :=
  processRawMessages fs db
    (((((messageSelectRows db).filter (searchCond term)).insertionSort dateDesc).take limit).map
      toRawMessageRow)

/-- Translation of `HistoryOptions` (the `end` field is named `stop`, since
`end` is a Lean keyword). -/
structure HistoryOptions where
  chatId : Nat
  limit : Nat := 50
  participants : Option (List String) := none
  start : Option ℚ := none
  stop : Option ℚ := none

/-- Translation of `WatchOptions` as consumed by `pollNewMessages` (the
`end` field is named `stop`). -/
structure PollOptions where
  chatId : Option Nat := none
  participants : Option (List String) := none
  start : Option ℚ := none
  stop : Option ℚ := none

/-- The optional `h.id IN (...)` participant filter: absent or empty lists
impose no condition; a null handle never matches. -/
def participantsCond (participants : Option (List String)) (r : SelectedRow) : Bool :=
  match participants with
  | none => true
  | some ps =>
    if ps.isEmpty then true
    else
      match r.handle with
      | some h => ps.contains h
      | none => false

/-- The optional `m.date >= ?` / `m.date < ?` half-open time-range filter,
with both bounds converted by `dateToAppleTimestamp`. -/
def dateRangeCond (start stop : Option ℚ) (r : SelectedRow) : Bool :=
  (match start with
   | none => true
   | some s => decide (dateToAppleTimestamp s ≤ r.date)) &&
  (match stop with
   | none => true
   | some e => decide (r.date < dateToAppleTimestamp e))

/-- Translation of `getChatMessages`: the join restricted to
`cmj.chat_id = ?` plus the optional participant and time-range filters,
ordered newest-first, limited, then processed. -/
def getChatMessages (fs : FileSystem) (db : DBState) (options : HistoryOptions) :
    List MessageRow :=
  processRawMessages fs db
    (((((messageSelectRows db).filter (fun r =>
        (r.chat_id == some options.chatId) &&
        participantsCond options.participants r &&
        dateRangeCond options.start options.stop r)).insertionSort
      dateDesc).take options.limit).map toRawMessageRow)

/-- The `WHERE` clause of `pollNewMessages`: `m.rowid > ?` plus the
optional chat, participant, and time-range filters. -/
def pollCond (opts : PollOptions) (sinceRowid : Nat) (r : SelectedRow) : Bool :=
  decide (sinceRowid < r.rowid) &&
  (match opts.chatId with
   | none => true
   | some cid => r.chat_id == some cid) &&
  participantsCond opts.participants r &&
  dateRangeCond opts.start opts.stop r

/-- The raw rows fetched by one poll: the join filtered by `pollCond`,
ordered by ascending rowid (`ORDER BY m.rowid ASC`, no limit). -/
def pollRawRows (db : DBState) (sinceRowid : Nat) (opts : PollOptions) :
    List RawMessageRow :=
  (((messageSelectRows db).filter (pollCond opts sinceRowid)).insertionSort
    rowidAsc).map toRawMessageRow

/-- Translation of `pollNewMessages` against a fixed database view. -/
def pollNewMessages (fs : FileSystem) (db : DBState) (sinceRowid : Nat)
    (opts : PollOptions) : List MessageRow :=
  processRawMessages fs db (pollRawRows db sinceRowid opts)

/-- Translation of one iteration of the `cmdWatch` loop body: poll, then
advance the watermark to the last (highest) rowid of a non-empty batch and
keep it unchanged otherwise.  Returns the batch and the new watermark. -/
def watchStep (fs : FileSystem) (db : DBState) (sinceRowid : Nat)
    (opts : PollOptions) : List MessageRow × Nat :=
  let messages := pollNewMessages fs db sinceRowid opts
  if messages.length > 0 then
    match messages.getLast? with
    | some m => (messages, m.rowid)
    | none => (messages, sinceRowid)
  else (messages, sinceRowid)

/-! ### Live-tail read connection

Modelled from the spec: the WAL-mode read-only connection may retain a read
snapshot, in which case queries observe the snapshot rather than the
writer's latest committed state; `BEGIN` acquires a fresh read-mark on the
current committed state (discarding any older snapshot) and `COMMIT`
releases it, after which queries again observe the committed state. -/
structure ReadConnection where
  snapshot : Option DBState

/-- Modelled from the spec: `db.run("BEGIN")` — begin a fresh read
transaction on the writer's latest committed state. -/
def runBegin (committed : DBState) (_conn : ReadConnection) : ReadConnection :=
  { snapshot := some committed }

/-- Modelled from the spec: `db.run("COMMIT")` — end the read transaction,
releasing the read-mark. -/
def runCommit (_conn : ReadConnection) : ReadConnection :=
  { snapshot := none }

/-- The database state a query observes through the connection. -/
def connView (committed : DBState) (conn : ReadConnection) : DBState :=
  match conn.snapshot with
  | some snap => snap
  | none => committed

/-- Translation of the transactional body of `pollNewMessages`:
`db.run("BEGIN")`, the query (against the connection's view), then
`db.run("COMMIT")`; `processRawMessages` runs after the commit. -/
def pollNewMessagesLive (fs : FileSystem) (committed : DBState)
    (conn : ReadConnection) (sinceRowid : Nat) (opts : PollOptions) :
    List MessageRow × ReadConnection :=
  let c1 := runBegin committed conn
  let rawMessages := pollRawRows (connView committed c1) sinceRowid opts
  let c2 := runCommit c1
  (processRawMessages fs (connView committed c2) rawMessages, c2)

/-- The contribution of one attachment query row to the list of one
message: skipped when the stored filename is null or empty or the row
belongs to another message. -/
def keyedInfo (fs : FileSystem) (id : Nat) (row : AttachmentRow) :
    Option AttachmentInfo :=
  match row.filename with
  | none => none
  | some f =>
    if f.isEmpty then none
    else if row.message_id = id then
      some (mkAttachmentInfo fs f row.mime_type)
    else none

/-- The spec-level attachment list of one message: its join rows, inner
joined to the attachment table, with null or empty stored filenames
omitted. -/
def specAttachmentsFor (fs : FileSystem) (db : DBState) (id : Nat) :
    List AttachmentInfo :=
  db.message_attachment_join.flatMap (fun j =>
    if j.message_id = id then
      (db.attachment.filter (fun a => a.rowid == j.attachment_id)).filterMap
        (fun a =>
          match a.filename with
          | none => none
          | some f =>
            if f.isEmpty then none
            else some (mkAttachmentInfo fs f a.mime_type))
    else [])

/-- The filesystem used by the concrete witness stores. -/
def fsW : FileSystem :=
  { home := "/Users/u", fileExists := fun _ => false }

/-- A concrete store with one message carrying two attachments and one
message carrying none. -/
def dbAtt : DBState :=
  { message :=
      [{ rowid := 1, guid := "g1", text := some "Photo", handle_id := 1,
         service := "iMessage", date := 1, is_from_me := 0,
         cache_roomnames := none, attributedBody := none },
       { rowid := 2, guid := "g2", text := some "NoAtt", handle_id := 1,
         service := "iMessage", date := 2, is_from_me := 0,
         cache_roomnames := none, attributedBody := none }],
    chat := [{ rowid := 1, display_name := none, chat_identifier := "c1",
               service_name := "iMessage" }],
    handle := [{ rowid := 1, id := "+15551234567" }],
    chat_message_join := [{ chat_id := 1, message_id := 1 },
                          { chat_id := 1, message_id := 2 }],
    attachment :=
      [{ rowid := 1, filename := some "~/Library/a.heic",
         mime_type := some "image/heic" },
       { rowid := 2, filename := some "/tmp/b.jpg",
         mime_type := some "image/jpeg" }],
    message_attachment_join := [{ message_id := 1, attachment_id := 1 },
                                { message_id := 1, attachment_id := 2 }] }

/-- A concrete store whose only message has a single attachment join row
with a null stored filename. -/
def dbNull : DBState :=
  { message :=
      [{ rowid := 1, guid := "g1", text := some "Hi", handle_id := 1,
         service := "iMessage", date := 1, is_from_me := 0,
         cache_roomnames := none, attributedBody := none }],
    chat := [{ rowid := 1, display_name := none, chat_identifier := "c1",
               service_name := "iMessage" }],
    handle := [{ rowid := 1, id := "+15551234567" }],
    chat_message_join := [{ chat_id := 1, message_id := 1 }],
    attachment := [{ rowid := 1, filename := none, mime_type := some "image/heic" }],
    message_attachment_join := [{ message_id := 1, attachment_id := 1 }] }

/-- A concrete store with one message whose plain text is
"Hello everyone!". -/
def dbHello : DBState :=
  { message :=
      [{ rowid := 1, guid := "g1", text := some "Hello everyone!",
         handle_id := 1, service := "iMessage", date := 1, is_from_me := 0,
         cache_roomnames := none, attributedBody := none }],
    chat := [{ rowid := 1, display_name := none, chat_identifier := "c1",
               service_name := "iMessage" }],
    handle := [{ rowid := 1, id := "+15551234567" }],
    chat_message_join := [{ chat_id := 1, message_id := 1 }],
    attachment := [],
    message_attachment_join := [] }

/-- The ASCII bytes of "zebra". -/
def zebraBytes : List Nat := [0x7A, 0x65, 0x62, 0x72, 0x61]

/-- A concrete store with one message whose plain text is null and whose
raw archived-body bytes are exactly "zebra" (no marker, so the payload does
not decode and the effective text stays null). -/
def dbPayload : DBState :=
  { message :=
      [{ rowid := 1, guid := "g1", text := none, handle_id := 1,
         service := "iMessage", date := 1, is_from_me := 0,
         cache_roomnames := none, attributedBody := some zebraBytes }],
    chat := [{ rowid := 1, display_name := none, chat_identifier := "c1",
               service_name := "iMessage" }],
    handle := [{ rowid := 1, id := "+15551234567" }],
    chat_message_join := [{ chat_id := 1, message_id := 1 }],
    attachment := [],
    message_attachment_join := [] }

/-- The spec-level polling predicate for one message table row: its row
identifier strictly exceeds the watermark, and it passes the optional
conversation, participant, and half-open time-range filters. -/
def specMatchesPoll (db : DBState) (opts : PollOptions) (w : Nat)
    (m : MessageTableRow) : Prop :=
  w < m.rowid ∧
  (∀ cid, opts.chatId = some cid →
    ∃ j ∈ db.chat_message_join, j.message_id = m.rowid ∧ j.chat_id = cid) ∧
  (∀ ps, opts.participants = some ps → ps ≠ [] →
    ∃ hid, resolvedHandle db m = some hid ∧ hid ∈ ps) ∧
  (∀ s, opts.start = some s → dateToAppleTimestamp s ≤ m.date) ∧
  (∀ e, opts.stop = some e → m.date < dateToAppleTimestamp e)

/-- The four-message store of the live-tail scenario: messages with row
identifiers 1–4 in one chat. -/
def db4 : DBState :=
  { message :=
      [{ rowid := 1, guid := "g1", text := some "m1", handle_id := 1,
         service := "iMessage", date := 1, is_from_me := 0,
         cache_roomnames := none, attributedBody := none },
       { rowid := 2, guid := "g2", text := some "m2", handle_id := 1,
         service := "iMessage", date := 2, is_from_me := 0,
         cache_roomnames := none, attributedBody := none },
       { rowid := 3, guid := "g3", text := some "m3", handle_id := 1,
         service := "iMessage", date := 3, is_from_me := 0,
         cache_roomnames := none, attributedBody := none },
       { rowid := 4, guid := "g4", text := some "m4", handle_id := 1,
         service := "iMessage", date := 4, is_from_me := 0,
         cache_roomnames := none, attributedBody := none }],
    chat := [{ rowid := 1, display_name := some "Family Chat",
               chat_identifier := "c1", service_name := "iMessage" }],
    handle := [{ rowid := 1, id := "+15551234567" }],
    chat_message_join := [{ chat_id := 1, message_id := 1 },
                          { chat_id := 1, message_id := 2 },
                          { chat_id := 1, message_id := 3 },
                          { chat_id := 1, message_id := 4 }],
    attachment := [],
    message_attachment_join := [] }

/-- C5, counterexample: one second after the native epoch
(`t = 978307201000` Unix-epoch milliseconds, 2001-01-01T00:00:01Z),
`dateToAppleTimestamp t = 1e9 ≤ 1e15`, so `appleTimestampToDate` misreads
it as seconds since the native epoch and the round trip is off by about
31.7 years — far outside millisecond precision. -/
theorem roundTrip_fails_near_native_epoch :
    |appleTimestampToDate (dateToAppleTimestamp 978307201000) - 978307201000| ≥ 1 := by
  norm_num [appleTimestampToDate, dateToAppleTimestamp, APPLE_EPOCH_OFFSET]

/-- C5, amended: `dateToAppleTimestamp` always produces nanosecond-scale
output (seconds since the native epoch multiplied by 1e9), and for every
absolute timestamp `t` whose nanosecond value exceeds the `1e15` magnitude
heuristic (all instants after 2001-01-12T13:46:40Z), the round trip through
`appleTimestampToDate` recovers `t` exactly, hence to millisecond
precision. -/
theorem dateToAppleTimestamp_roundTrip (t : ℚ) :
    dateToAppleTimestamp t = secondsSinceNativeEpoch t * 1e9 ∧
    (dateToAppleTimestamp t > 1e15 →
      appleTimestampToDate (dateToAppleTimestamp t) = t) := by
  constructor
  · rfl
  · intro h
    simp only [appleTimestampToDate, if_pos h]
    simp only [dateToAppleTimestamp, APPLE_EPOCH_OFFSET]
    norm_num

/-- C5, witness: the round-trip theorem applied at the concrete absolute
timestamp 1600000000000 (2020-09-13T12:26:40Z). -/
theorem dateToAppleTimestamp_roundTrip_witness :
    dateToAppleTimestamp 1600000000000 > 1e15 ∧
    appleTimestampToDate (dateToAppleTimestamp 1600000000000) = 1600000000000 := by
  have h : dateToAppleTimestamp 1600000000000 > 1e15 := by
    norm_num [dateToAppleTimestamp, APPLE_EPOCH_OFFSET]
  exact ⟨h, (dateToAppleTimestamp_roundTrip 1600000000000).2 h⟩

/-- C6, counterexample: the raw value `-2e15` has magnitude exceeding
`1e15`, but `appleTimestampToDate` uses a signed comparison
(`timestamp > 1e15`), so it takes the seconds branch instead of the
nanosecond interpretation the claim requires. -/
theorem appleTimestampToDate_not_magnitude_based :
    |(-2e15 : ℚ)| > 1e15 ∧
    appleTimestampToDate (-2e15) ≠ nanoInterpretation (-2e15) := by
  constructor
  · norm_num
  · norm_num [appleTimestampToDate, nanoInterpretation, APPLE_EPOCH_OFFSET]

/-- C6, amended: `appleTimestampToDate` interprets a raw value as
nanoseconds since the native epoch exactly when it exceeds `1e15` under the
signed comparison (so all negative values, whatever their magnitude, take
the seconds branch), interprets every value at most `1e15` as seconds since
the native epoch, maps `0` to the native epoch instant 2001-01-01T00:00:00Z
(Unix-epoch millisecond value 978307200000), and is total on every numeric
input. -/
theorem appleTimestampToDate_branches (raw : ℚ) :
    (raw > 1e15 → appleTimestampToDate raw = nanoInterpretation raw) ∧
    (raw ≤ 1e15 → appleTimestampToDate raw = secondsInterpretation raw) ∧
    appleTimestampToDate 0 = 978307200000 := by
  refine ⟨fun h => ?_, fun h => ?_, ?_⟩
  · simp only [appleTimestampToDate, if_pos h, nanoInterpretation]
  · simp only [appleTimestampToDate, if_neg (not_lt.mpr h), secondsInterpretation]
  · norm_num [appleTimestampToDate, APPLE_EPOCH_OFFSET]

/-- C6, witness: the branch theorem applied at the concrete raw values
`2e15` (nanosecond branch) and `5` (seconds branch). -/
theorem appleTimestampToDate_branches_witness :
    appleTimestampToDate 2e15 = nanoInterpretation 2e15 ∧
    appleTimestampToDate 5 = secondsInterpretation 5 ∧
    appleTimestampToDate 0 = 978307200000 :=
  ⟨(appleTimestampToDate_branches 2e15).1 (by norm_num),
   (appleTimestampToDate_branches 5).2.1 (by norm_num),
   (appleTimestampToDate_branches 0).2.2⟩

/-- Every Unicode code point is below `0x110000`. -/
theorem char_toNat_lt (c : Char) : c.toNat < 1114112 := by
  rcases c.valid with h | ⟨_, h⟩
  · exact Nat.lt_trans h (by norm_num)
  · exact h

/-- The encoding of a code point is never empty. -/
theorem utf8EncodeChar_ne_nil (c : Char) : utf8EncodeChar c ≠ [] := by
  rw [utf8EncodeChar]
  split_ifs <;> simp

/-- Decoding after an encoded code point resumes cleanly: the decoder
consumes exactly the bytes of `utf8EncodeChar c` and recovers `c`. -/
theorem utf8DecodeOne_encodeChar (c : Char) (bs : List Nat) :
    utf8DecodeOne (utf8EncodeChar c ++ bs) = some (c, bs) := by
  have hlt : c.toNat < 1114112 := char_toNat_lt c
  by_cases h1 : c.toNat < 0x80
  · have he : utf8EncodeChar c = [c.toNat] := by
      rw [utf8EncodeChar, if_pos h1]
    rw [he, List.cons_append, List.nil_append]
    simp only [utf8DecodeOne, if_pos h1, Char.ofNat_toNat]
  · by_cases h2 : c.toNat < 0x800
    · have he : utf8EncodeChar c = [0xC0 + c.toNat / 64, 0x80 + c.toNat % 64] := by
        rw [utf8EncodeChar, if_neg h1, if_pos h2]
      have hb1 : ¬ (0xC0 + c.toNat / 64 < 0x80) := by omega
      have hb2 : ¬ (0xC0 + c.toNat / 64 < 0xC0) := by omega
      have hb3 : 0xC0 + c.toNat / 64 < 0xE0 := by omega
      have hv : (0xC0 + c.toNat / 64) % 32 * 64 + (0x80 + c.toNat % 64) % 64
          = c.toNat := by omega
      rw [he, List.cons_append, List.cons_append, List.nil_append]
      simp only [utf8DecodeOne, if_neg hb1, if_neg hb2, if_pos hb3, hv,
        Char.ofNat_toNat]
    · by_cases h3 : c.toNat < 0x10000
      · have he : utf8EncodeChar c =
            [0xE0 + c.toNat / 4096, 0x80 + c.toNat / 64 % 64, 0x80 + c.toNat % 64] := by
          rw [utf8EncodeChar, if_neg h1, if_neg h2, if_pos h3]
        have hb1 : ¬ (0xE0 + c.toNat / 4096 < 0x80) := by omega
        have hb2 : ¬ (0xE0 + c.toNat / 4096 < 0xC0) := by omega
        have hb3 : ¬ (0xE0 + c.toNat / 4096 < 0xE0) := by omega
        have hb4 : 0xE0 + c.toNat / 4096 < 0xF0 := by omega
        have hv : (0xE0 + c.toNat / 4096) % 16 * 4096
            + (0x80 + c.toNat / 64 % 64) % 64 * 64 + (0x80 + c.toNat % 64) % 64
            = c.toNat := by omega
        rw [he, List.cons_append, List.cons_append, List.cons_append,
          List.nil_append]
        simp only [utf8DecodeOne, if_neg hb1, if_neg hb2, if_neg hb3,
          if_pos hb4, hv, Char.ofNat_toNat]
      · have he : utf8EncodeChar c =
            [0xF0 + c.toNat / 262144, 0x80 + c.toNat / 4096 % 64,
             0x80 + c.toNat / 64 % 64, 0x80 + c.toNat % 64] := by
          rw [utf8EncodeChar, if_neg h1, if_neg h2, if_neg h3]
        have hb1 : ¬ (0xF0 + c.toNat / 262144 < 0x80) := by omega
        have hb2 : ¬ (0xF0 + c.toNat / 262144 < 0xC0) := by omega
        have hb3 : ¬ (0xF0 + c.toNat / 262144 < 0xE0) := by omega
        have hb4 : ¬ (0xF0 + c.toNat / 262144 < 0xF0) := by omega
        have hb5 : 0xF0 + c.toNat / 262144 < 0xF8 := by omega
        have hv : (0xF0 + c.toNat / 262144) % 8 * 262144
            + (0x80 + c.toNat / 4096 % 64) % 64 * 4096
            + (0x80 + c.toNat / 64 % 64) % 64 * 64 + (0x80 + c.toNat % 64) % 64
            = c.toNat := by omega
        rw [he, List.cons_append, List.cons_append, List.cons_append,
          List.cons_append, List.nil_append]
        simp only [utf8DecodeOne, if_neg hb1, if_neg hb2, if_neg hb3,
          if_neg hb4, if_pos hb5, hv, Char.ofNat_toNat]

/-- The UTF-8 round trip on code-point lists, for any sufficient fuel. -/
theorem utf8DecodeLoop_flatMap (cs : List Char) :
    ∀ fuel, cs.length ≤ fuel →
      utf8DecodeLoop fuel (cs.flatMap utf8EncodeChar) = some cs := by
  induction cs with
  | nil =>
    intro fuel _
    cases fuel <;> simp [utf8DecodeLoop]
  | cons c rest ih =>
    intro fuel h
    match fuel with
    | 0 => simp at h
    | f + 1 =>
      rw [List.flatMap_cons]
      have hne : ¬ ((utf8EncodeChar c ++ rest.flatMap utf8EncodeChar).isEmpty = true) := by
        simp [List.isEmpty_iff, utf8EncodeChar_ne_nil c]
      rw [utf8DecodeLoop, if_neg hne, utf8DecodeOne_encodeChar]
      have hf : rest.length ≤ f := by
        simp only [List.length_cons] at h
        omega
      dsimp only
      rw [ih f hf]
      rfl

/-- Every code point encodes into at least one byte. -/
theorem length_le_flatMap_encode (cs : List Char) :
    cs.length ≤ (cs.flatMap utf8EncodeChar).length := by
  induction cs with
  | nil => simp
  | cons c rest ih =>
    rw [List.flatMap_cons, List.length_append, List.length_cons]
    have hpos : 0 < (utf8EncodeChar c).length :=
      List.length_pos.mpr (utf8EncodeChar_ne_nil c)
    omega

/-- The UTF-8 round trip: decoding the encoding of any string recovers
exactly its code points. -/
theorem utf8DecodeChars_utf8Encode (s : String) :
    utf8DecodeChars (utf8Encode s) = some s.data := by
  rw [utf8DecodeChars, utf8Encode]
  exact utf8DecodeLoop_flatMap s.data _ (length_le_flatMap_encode s.data)

/-- A successful marker scan decomposes the buffer: the scanned bytes, then
the two marker bytes, then the returned suffix. -/
theorem exists_of_suffixAfterMarker (buf : List Nat) (s : List Nat)
    (h : suffixAfterMarker buf = some s) :
    ∃ l, buf = l ++ 0x01 :: 0x2B :: s := by
  induction buf with
  | nil => simp [suffixAfterMarker] at h
  | cons b rest ih =>
    rw [suffixAfterMarker.eq_def] at h
    dsimp only at h
    by_cases hb : b = 0x01
    · rw [if_pos hb] at h
      cases rest with
      | nil => simp at h
      | cons b2 rest2 =>
        dsimp only at h
        by_cases hb2 : b2 = 0x2B
        · rw [if_pos hb2] at h
          obtain rfl : rest2 = s := by injection h
          exact ⟨[], by rw [hb, hb2]; rfl⟩
        · rw [if_neg hb2] at h
          obtain ⟨l, hl⟩ := ih h
          exact ⟨b :: l, by rw [List.cons_append, hl]⟩
    · rw [if_neg hb] at h
      obtain ⟨l, hl⟩ := ih h
      exact ⟨b :: l, by rw [List.cons_append, hl]⟩

/-- A buffer with no occurrence of the two marker bytes scans to `none`. -/
theorem suffixAfterMarker_eq_none (buf : List Nat)
    (h : ∀ l r, buf ≠ l ++ ATTRIBUTED_BODY_TEXT_MARKER ++ r) :
    suffixAfterMarker buf = none := by
  cases hsm : suffixAfterMarker buf with
  | none => rfl
  | some s =>
    obtain ⟨l, hl⟩ := exists_of_suffixAfterMarker buf s hsm
    exact absurd hl (by simpa [ATTRIBUTED_BODY_TEXT_MARKER, List.append_assoc] using h l s)

/-- Disjoint bitwise-or is addition: or-ing a value below `2 ^ k` with a
multiple of `2 ^ k` adds them. -/
theorem or_mul_two_pow_eq_add (k : Nat) :
    ∀ x y : Nat, x < 2 ^ k → x ||| y * 2 ^ k = x + y * 2 ^ k := by
  induction k with
  | zero =>
    intro x y hx
    obtain rfl : x = 0 := by omega
    simp
  | succ k ih =>
    intro x y hx
    have hpow : 2 ^ (k + 1) = 2 ^ k * 2 := by rw [pow_succ]
    have hm2 : y * 2 ^ (k + 1) = y * 2 ^ k * 2 := by rw [hpow]; ring
    have hmod : y * 2 ^ (k + 1) % 2 = 0 := by omega
    have hor2 : (x ||| y * 2 ^ (k + 1)) % 2 = x % 2 := by
      have hiff := Nat.or_mod_two_eq_one (a := x) (b := y * 2 ^ (k + 1))
      omega
    have hordiv : (x ||| y * 2 ^ (k + 1)) / 2 = x / 2 ||| y * 2 ^ k := by
      rw [Nat.or_div_two]
      congr 1
      omega
    have hxdiv : x / 2 < 2 ^ k := by omega
    have hdiv2 : (x ||| y * 2 ^ (k + 1)) / 2 = x / 2 + y * 2 ^ k := by
      rw [hordiv, ih (x / 2) y hxdiv]
    omega

theorem leBytes_length : ∀ k L, (leBytes k L).length = k
  | 0, _ => rfl
  | k + 1, L => by rw [leBytes, List.length_cons, leBytes_length k]

theorem leBytes_lt : ∀ k L, ∀ b ∈ leBytes k L, b < 256
  | 0, _ => by simp [leBytes]
  | k + 1, L => by
    rw [leBytes]
    intro b hb
    rcases List.mem_cons.mp hb with rfl | hmem
    · omega
    · exact leBytes_lt k (L / 256) b hmem

theorem leVal_leBytes : ∀ k L, leVal (leBytes k L) = L % 2 ^ (8 * k)
  | 0, L => by simp [leBytes, leVal, Nat.mod_one]
  | k + 1, L => by
    rw [leBytes, leVal, leVal_leBytes k]
    have hpow : 2 ^ (8 * (k + 1)) = 256 * 2 ^ (8 * k) := by
      rw [show 8 * (k + 1) = 8 + 8 * k by ring, pow_add]
      norm_num
    rw [hpow, Nat.mod_mul]

/-- The JS `|=`/`<<` accumulation computes the little-endian value, as long
as no shift count reaches 32: starting at byte index `i` with an
accumulator below `2 ^ (8 i)`, at most four bytes in total, the or-steps
are disjoint and sum up. -/
theorem lengthOrAccum_spec :
    ∀ (bs : List Nat) (i acc : Nat), acc < 2 ^ (8 * i) →
      (∀ b ∈ bs, b < 256) → i + bs.length ≤ 4 →
      lengthOrAccum bs i acc = acc + leVal bs * 2 ^ (8 * i) := by
  intro bs
  induction bs with
  | nil => intro i acc _ _ _; simp [lengthOrAccum, leVal]
  | cons b bs ih =>
    intro i acc hacc hbytes hlen
    have hb : b < 256 := hbytes b (List.mem_cons_self b bs)
    have hi : i ≤ 3 := by
      simp only [List.length_cons] at hlen
      omega
    have hshift : 8 * i % 32 = 8 * i := by omega
    have hple : (2 : Nat) ^ (8 * i) ≤ 2 ^ 24 :=
      Nat.pow_le_pow_right (by norm_num) (by omega)
    have hppos : 0 < (2 : Nat) ^ (8 * i) := Nat.pos_pow_of_pos _ (by norm_num)
    have hbp : b * 2 ^ (8 * i) < 2 ^ 32 := by
      have h1 : b * 2 ^ (8 * i) ≤ 255 * 2 ^ 24 := Nat.mul_le_mul (by omega) hple
      have h2 : (255 : Nat) * 2 ^ 24 < 2 ^ 32 := by norm_num
      omega
    have hmod : (b * 2 ^ (8 * i % 32)) % 2 ^ 32 = b * 2 ^ (8 * i) := by
      rw [hshift]
      exact Nat.mod_eq_of_lt hbp
    have hor : acc ||| b * 2 ^ (8 * i) = acc + b * 2 ^ (8 * i) :=
      or_mul_two_pow_eq_add (8 * i) acc b hacc
    have hacc' : acc + b * 2 ^ (8 * i) < 2 ^ (8 * (i + 1)) := by
      have hpow : 2 ^ (8 * (i + 1)) = 2 ^ (8 * i) * 256 := by
        rw [show 8 * (i + 1) = 8 * i + 8 by ring, pow_add]
        norm_num
      have h1 : b * 2 ^ (8 * i) ≤ 255 * 2 ^ (8 * i) :=
        Nat.mul_le_mul_right _ (by omega)
      omega
    have hlen' : i + 1 + bs.length ≤ 4 := by
      simp only [List.length_cons] at hlen
      omega
    rw [lengthOrAccum, hmod, hor,
      ih (i + 1) (acc + b * 2 ^ (8 * i)) hacc' (fun x hx => hbytes x (List.mem_cons_of_mem b hx)) hlen']
    have hpow : 2 ^ (8 * (i + 1)) = 2 ^ (8 * i) * 256 := by
      rw [show 8 * (i + 1) = 8 * i + 8 by ring, pow_add]
      norm_num
    rw [leVal, hpow]
    ring

/-- A declared length below `0x80` is read from the single control byte. -/
theorem decodeDeclaredLength_small (L : Nat) (tail : List Nat) (h : L < 0x80) :
    decodeDeclaredLength (L :: tail) = some ((L : Int), tail) := by
  rw [decodeDeclaredLength.eq_def]
  dsimp only
  rw [if_pos h]

/-- A control byte `0x80 + (k - 1)` followed by the `k` little-endian bytes
of `L` decodes to the declared length `L`, for `1 ≤ k ≤ 4` and
`L < 2 ^ (8 k)` within the positive signed 32-bit range. -/
theorem decodeDeclaredLength_le (k L : Nat) (tail : List Nat)
    (hk1 : 1 ≤ k) (hk4 : k ≤ 4) (hL : L < 2 ^ (8 * k)) (h31 : L < 2 ^ 31) :
    decodeDeclaredLength ((0x80 + (k - 1)) :: (leBytes k L ++ tail)) =
      some ((L : Int), tail) := by
  rw [decodeDeclaredLength.eq_def]
  dsimp only
  rw [if_neg (by omega)]
  have hand : (0x80 + (k - 1)) &&& 0x7F = k - 1 := by
    rw [show (0x7F : Nat) = 2 ^ 7 - 1 by norm_num,
      Nat.and_pow_two_sub_one_eq_mod]
    omega
  rw [hand]
  have hklen : k - 1 + 1 = k := by omega
  rw [hklen]
  have hlen : (leBytes k L ++ tail).length = k + tail.length := by
    rw [List.length_append, leBytes_length]
  rw [if_neg (by omega)]
  have htake : (leBytes k L ++ tail).take k = leBytes k L := by
    rw [List.take_append_of_le_length (by rw [leBytes_length]),
      List.take_of_length_le (by rw [leBytes_length])]
  have hdrop : (leBytes k L ++ tail).drop k = tail := by
    rw [List.drop_append_of_le_length (by rw [leBytes_length]),
      List.drop_of_length_le (by rw [leBytes_length]), List.nil_append]
  rw [htake, hdrop]
  have haccum : lengthOrAccum (leBytes k L) 0 0 = L := by
    rw [lengthOrAccum_spec (leBytes k L) 0 0 (by norm_num) (leBytes_lt k L)
      (by rw [leBytes_length]; omega)]
    rw [leVal_leBytes]
    have : L % 2 ^ (8 * k) = L := Nat.mod_eq_of_lt hL
    simp [this]
  rw [haccum]
  have hint : asInt32 L = (L : Int) := by
    rw [asInt32, if_pos (by exact_mod_cast h31)]
  rw [hint]

/-- A nonempty string has a nonempty code-point list. -/
theorem string_data_ne_nil (s : String) (hs : s ≠ "") : s.data ≠ [] := by
  intro hd
  apply hs
  cases s with
  | mk d =>
    simp only at hd
    rw [hd]

/-- A nonempty string has a nonempty UTF-8 encoding. -/
theorem utf8Encode_length_pos (s : String) (hs : s ≠ "") :
    0 < (utf8Encode s).length := by
  have h1 : 0 < s.data.length :=
    List.length_pos.mpr (string_data_ne_nil s hs)
  have h2 := length_le_flatMap_encode s.data
  rw [utf8Encode]
  omega

/-- Extraction from a buffer that starts with the marker and whose suffix
decodes to the declared length and UTF-8 bytes of a nonempty string `s`
yields exactly `s`. -/
theorem extract_of_declaredLength (s : String) (hs : s ≠ "") (ls : List Nat)
    (hdec : decodeDeclaredLength ls = some (((utf8Encode s).length : Int), utf8Encode s)) :
    extractTextFromAttributedBody (some (0x01 :: 0x2B :: ls)) = some s := by
  have hdata : s.data ≠ [] := string_data_ne_nil s hs
  have hlen0 : 0 < (utf8Encode s).length := utf8Encode_length_pos s hs
  rw [extractTextFromAttributedBody.eq_def]
  dsimp only
  rw [if_neg (by simp)]
  have hsfx : suffixAfterMarker (0x01 :: 0x2B :: ls) = some ls := rfl
  rw [hsfx]
  dsimp only
  rw [hdec]
  dsimp only
  rw [if_neg (by omega)]
  rw [if_neg (by omega)]
  have htoNat : (((utf8Encode s).length : Int)).toNat = (utf8Encode s).length := by
    omega
  rw [htoNat, List.take_length, utf8DecodeChars_utf8Encode]
  dsimp only
  rw [if_neg (by simpa using hdata)]

/-- C4, counterexample: the claim quantifies over every string, but the
well-formed buffer for the empty string declares length `0`, which the
decoder's non-positive-length check turns into "no text" (`none`), not the
empty string. -/
theorem extract_empty_string_fails :
    extractTextFromAttributedBody (some (specShortBuffer "")) ≠ some "" := by
  decide

/-- C4, amended: for every nonempty string `s` whose UTF-8 byte length fits
in the positive signed 32-bit range (below `2 ^ 31`, forced by the
decoder's JS 32-bit arithmetic), a well-formed archive buffer — the 2-byte
marker followed by the spec's length encoding of the byte length (a single
byte for lengths below `0x80`; otherwise a control byte `0x80 + (k - 1)`
and `k ≤ 4` little-endian length bytes) followed by the UTF-8 bytes of `s`
— decodes via `extractTextFromAttributedBody` to exactly `s`; this covers
short runs, long runs through the multi-byte length path, and multi-byte
UTF-8 content such as emoji. -/
theorem extractTextFromAttributedBody_roundTrip (s : String) (k : Nat) (hs : s ≠ "") :
    ((utf8Encode s).length < 0x80 →
      extractTextFromAttributedBody (some (specShortBuffer s)) = some s) ∧
    (1 ≤ k → k ≤ 4 →
      (utf8Encode s).length < 2 ^ (8 * k) → (utf8Encode s).length < 2 ^ 31 →
      extractTextFromAttributedBody (some (specLongBuffer k s)) = some s) := by
  constructor
  · intro h
    have hdec :=
      decodeDeclaredLength_small (utf8Encode s).length (utf8Encode s) h
    have hb : specShortBuffer s =
        0x01 :: 0x2B :: ((utf8Encode s).length :: utf8Encode s) := by
      simp [specShortBuffer, ATTRIBUTED_BODY_TEXT_MARKER]
    rw [hb]
    exact extract_of_declaredLength s hs _ hdec
  · intro hk1 hk4 hL h31
    have hdec :=
      decodeDeclaredLength_le k (utf8Encode s).length (utf8Encode s) hk1 hk4 hL h31
    have hb : specLongBuffer k s =
        0x01 :: 0x2B ::
          ((0x80 + (k - 1)) :: (leBytes k (utf8Encode s).length ++ utf8Encode s)) := by
      simp [specLongBuffer, ATTRIBUTED_BODY_TEXT_MARKER]
    rw [hb]
    exact extract_of_declaredLength s hs _ hdec

/-- C4, witness: the round-trip theorem applied at the concrete string
"a🤔" (five UTF-8 bytes, one of them a four-byte emoji), through both the
single-byte length path and the two-byte (`k = 2`) length path. -/
theorem extractTextFromAttributedBody_roundTrip_witness :
    ("a🤔" : String) ≠ "" ∧
    extractTextFromAttributedBody (some (specShortBuffer "a🤔")) = some "a🤔" ∧
    extractTextFromAttributedBody (some (specLongBuffer 2 "a🤔")) = some "a🤔" := by
  have hs : ("a🤔" : String) ≠ "" := by decide
  refine ⟨hs, ?_, ?_⟩
  · exact (extractTextFromAttributedBody_roundTrip "a🤔" 2 hs).1 (by decide)
  · exact (extractTextFromAttributedBody_roundTrip "a🤔" 2 hs).2
      (by decide) (by decide) (by decide) (by decide)

/-- C3: the archived-body decoder is a total function (by construction of
the embedding) and maps every malformed input to `none` rather than
failing: a null buffer, an empty buffer, a buffer containing no occurrence
of the `0x01 0x2B` marker, a buffer whose declared-length read runs past
the end, a non-positive declared length, and a declared length that would
read past the end of the buffer all yield `none`. -/
theorem extractTextFromAttributedBody_total (buf s rest : List Nat) (len : Int) :
    extractTextFromAttributedBody none = none ∧
    extractTextFromAttributedBody (some []) = none ∧
    ((∀ l r, buf ≠ l ++ ATTRIBUTED_BODY_TEXT_MARKER ++ r) →
      extractTextFromAttributedBody (some buf) = none) ∧
    (suffixAfterMarker buf = some s → decodeDeclaredLength s = none →
      extractTextFromAttributedBody (some buf) = none) ∧
    (suffixAfterMarker buf = some s → decodeDeclaredLength s = some (len, rest) →
      len ≤ 0 → extractTextFromAttributedBody (some buf) = none) ∧
    (suffixAfterMarker buf = some s → decodeDeclaredLength s = some (len, rest) →
      (rest.length : Int) < len → extractTextFromAttributedBody (some buf) = none) := by
  have hlen : ∀ t : List Nat, suffixAfterMarker buf = some t → buf.length ≠ 0 := by
    intro t ht
    obtain ⟨l, hl⟩ := exists_of_suffixAfterMarker buf t ht
    rw [hl]
    simp
  refine ⟨rfl, rfl, ?_, ?_, ?_, ?_⟩
  · intro hno
    have hsfx : suffixAfterMarker buf = none := suffixAfterMarker_eq_none buf hno
    rw [extractTextFromAttributedBody.eq_def]
    dsimp only
    by_cases h0 : buf.length = 0
    · rw [if_pos h0]
    · rw [if_neg h0, hsfx]
  · intro hsfx hdec
    rw [extractTextFromAttributedBody.eq_def]
    dsimp only
    rw [if_neg (hlen s hsfx), hsfx]
    dsimp only
    rw [hdec]
  · intro hsfx hdec hle
    rw [extractTextFromAttributedBody.eq_def]
    dsimp only
    rw [if_neg (hlen s hsfx), hsfx]
    dsimp only
    rw [hdec]
    dsimp only
    rw [if_pos hle]
  · intro hsfx hdec hpast
    rw [extractTextFromAttributedBody.eq_def]
    dsimp only
    rw [if_neg (hlen s hsfx), hsfx]
    dsimp only
    rw [hdec]
    dsimp only
    by_cases hle : len ≤ 0
    · rw [if_pos hle]
    · rw [if_neg hle, if_pos hpast]

/-- C3, witness: the totality theorem applied at concrete malformed
buffers — `[0, 2]` (marker-free), `[1, 43]` with suffix `[]` (truncated
length read), `[1, 43, 0]` (declared length `0`, non-positive), and
`[1, 43, 5, 65]` (declared length `5` past the end of the one remaining
byte). -/
theorem extractTextFromAttributedBody_total_witness :
    extractTextFromAttributedBody none = none ∧
    extractTextFromAttributedBody (some []) = none ∧
    extractTextFromAttributedBody (some [0, 2]) = none ∧
    extractTextFromAttributedBody (some [1, 43]) = none ∧
    extractTextFromAttributedBody (some [1, 43, 0]) = none ∧
    extractTextFromAttributedBody (some [1, 43, 5, 65]) = none := by
  have hnomarker : ∀ l r, ([0, 2] : List Nat) ≠ l ++ ATTRIBUTED_BODY_TEXT_MARKER ++ r := by
    intro l r h
    have h2 := congrArg List.length h
    simp [ATTRIBUTED_BODY_TEXT_MARKER] at h2
    obtain ⟨hl, hr⟩ : l = [] ∧ r = [] := by
      constructor <;> [skip; skip] <;>
        exact List.eq_nil_of_length_eq_zero (by omega)
    subst hl
    subst hr
    simp [ATTRIBUTED_BODY_TEXT_MARKER] at h
  refine ⟨(extractTextFromAttributedBody_total [] [] [] 0).1,
    (extractTextFromAttributedBody_total [] [] [] 0).2.1,
    (extractTextFromAttributedBody_total [0, 2] [] [] 0).2.2.1 hnomarker,
    (extractTextFromAttributedBody_total [1, 43] [] [] 0).2.2.2.1 (by decide) (by decide),
    (extractTextFromAttributedBody_total [1, 43, 0] [0] [] 0).2.2.2.2.1
      (by decide) (by decide) (by decide),
    (extractTextFromAttributedBody_total [1, 43, 5, 65] [5, 65] [65] 5).2.2.2.2.2
      (by decide) (by decide) (by decide)⟩

/-- C2: a polling step brackets its query in `BEGIN`/`COMMIT`, so whatever
snapshot the read connection previously retained — including an arbitrarily
stale one — the step queries exactly the writer's latest committed state
and leaves no snapshot behind: its result coincides with a poll evaluated
directly on the committed state, for every prior connection state. -/
theorem pollNewMessagesLive_reads_committed (fs : FileSystem)
    (committed : DBState) (conn : ReadConnection) (sinceRowid : Nat)
    (opts : PollOptions) :
    pollNewMessagesLive fs committed conn sinceRowid opts =
      (pollNewMessages fs committed sinceRowid opts, { snapshot := none }) :=
  rfl

/-! ### Pipeline lemmas -/
/-- Hydration preserves the rowid column. -/
theorem hydrate_map_rowid (raws : List RawMessageRow) :
    (hydrateAttributedBodyText raws).map (fun m => m.rowid) =
      raws.map (fun r => r.rowid) := by
  rw [hydrateAttributedBodyText, List.map_map]
  rfl

/-- Attachment loading preserves the rowid column. -/
theorem attach_map_rowid (fs : FileSystem) (db : DBState)
    (messages : List MessageRow) :
    (attachAttachments fs db messages).map (fun m => m.rowid) =
      messages.map (fun m => m.rowid) := by
  rw [attachAttachments, List.map_map]
  rfl

/-- Attachment loading preserves the text column. -/
theorem attach_map_text (fs : FileSystem) (db : DBState)
    (messages : List MessageRow) :
    (attachAttachments fs db messages).map (fun m => m.text) =
      messages.map (fun m => m.text) := by
  rw [attachAttachments, List.map_map]
  rfl

/-- Processing preserves the rowid column. -/
theorem processRaw_map_rowid (fs : FileSystem) (db : DBState)
    (raws : List RawMessageRow) :
    (processRawMessages fs db raws).map (fun m => m.rowid) =
      raws.map (fun r => r.rowid) := by
  rw [processRawMessages, attach_map_rowid, hydrate_map_rowid]

/-- Hydration preserves the date column. -/
theorem hydrate_map_date (raws : List RawMessageRow) :
    (hydrateAttributedBodyText raws).map (fun m => m.date) =
      raws.map (fun r => r.date) := by
  rw [hydrateAttributedBodyText, List.map_map]
  rfl

/-- Attachment loading preserves the date column. -/
theorem attach_map_date (fs : FileSystem) (db : DBState)
    (messages : List MessageRow) :
    (attachAttachments fs db messages).map (fun m => m.date) =
      messages.map (fun m => m.date) := by
  rw [attachAttachments, List.map_map]
  rfl

/-- Processing preserves the date column. -/
theorem processRaw_map_date (fs : FileSystem) (db : DBState)
    (raws : List RawMessageRow) :
    (processRawMessages fs db raws).map (fun m => m.date) =
      raws.map (fun r => r.date) := by
  rw [processRawMessages, attach_map_date, hydrate_map_date]

/-- Projection of a joined row keeps the rowid. -/
theorem toRaw_map_rowid (rows : List SelectedRow) :
    (rows.map toRawMessageRow).map (fun r => r.rowid) =
      rows.map (fun r => r.rowid) := by
  rw [List.map_map]
  rfl

/-- Projection of a joined row keeps the date. -/
theorem toRaw_map_date (rows : List SelectedRow) :
    (rows.map toRawMessageRow).map (fun r => r.date) =
      rows.map (fun r => r.date) := by
  rw [List.map_map]
  rfl

/-- Membership decomposition for the processing pipeline: every returned
message arises from a fetched raw row with the same rowid, text hydrated by
the hydration rule, and attachments drawn from the batch-keyed map. -/
theorem mem_processRawMessages (fs : FileSystem) (db : DBState)
    (raws : List RawMessageRow) (m : MessageRow)
    (hm : m ∈ processRawMessages fs db raws) :
    ∃ raw ∈ raws, m.rowid = raw.rowid ∧
      m.text = hydratedText raw.text raw.attributed_body ∧
      m.attachments =
        loadAttachments fs db (raws.map (fun r => r.rowid)) m.rowid := by
  rw [processRawMessages, attachAttachments] at hm
  obtain ⟨m0, hm0, rfl⟩ := List.mem_map.mp hm
  rw [hydrateAttributedBodyText] at hm0
  obtain ⟨raw, hraw, rfl⟩ := List.mem_map.mp hm0
  refine ⟨raw, hraw, rfl, rfl, ?_⟩
  have hids : (hydrateAttributedBodyText raws).map (fun m => m.rowid) =
      raws.map (fun r => r.rowid) := hydrate_map_rowid raws
  rw [hids]

/-- The accumulation loop of `loadAttachments`, read back per message: the
map entry for `id` collects `keyedInfo` over the query rows in order. -/
theorem foldl_loadAttachmentsStep (fs : FileSystem) (rows : List AttachmentRow) :
    ∀ (m : Nat → List AttachmentInfo) (id : Nat),
      (rows.foldl (loadAttachmentsStep fs) m) id =
        m id ++ rows.filterMap (keyedInfo fs id) := by
  induction rows with
  | nil => intro m id; simp
  | cons row rest ih =>
    intro m id
    rw [List.foldl_cons, ih, List.filterMap_cons]
    cases hf : row.filename with
    | none => simp [loadAttachmentsStep, keyedInfo, hf]
    | some f =>
      by_cases hemp : f.isEmpty
      · simp [loadAttachmentsStep, keyedInfo, hf, hemp]
      · by_cases hid : row.message_id = id
        · simp [loadAttachmentsStep, keyedInfo, hf, hemp, hid,
            List.append_assoc]
        · have hid2 : ¬ id = row.message_id := fun h => hid h.symm
          simp [loadAttachmentsStep, keyedInfo, hf, hemp, hid, hid2]

/-- The per-message reading of `loadAttachments`. -/
theorem loadAttachments_eq (fs : FileSystem) (db : DBState) (ids : List Nat)
    (id : Nat) :
    loadAttachments fs db ids id =
      if ids.isEmpty then []
      else (attachmentJoinRows db ids).filterMap (keyedInfo fs id) := by
  rw [loadAttachments]
  by_cases h : ids.isEmpty
  · rw [if_pos h, if_pos h]
  · rw [if_neg h, if_neg h, foldl_loadAttachmentsStep, List.nil_append]

/-- For a message of the batch, the filtered query rows reduce to the
spec-level attachment list: rows of other batch members are filtered out by
`keyedInfo` and rows of non-members never appear. -/
theorem filterMap_keyedInfo_attachmentJoinRows (fs : FileSystem)
    (db : DBState) (ids : List Nat) (id : Nat) (hid : id ∈ ids) :
    (attachmentJoinRows db ids).filterMap (keyedInfo fs id) =
      specAttachmentsFor fs db id := by
  rw [attachmentJoinRows, specAttachmentsFor]
  generalize db.message_attachment_join = joins
  induction joins with
  | nil => simp
  | cons j rest ih =>
    rw [List.flatMap_cons, List.flatMap_cons, List.filterMap_append, ih]
    congr 1
    by_cases hc : ids.contains j.message_id
    · rw [if_pos hc, List.filterMap_map]
      by_cases hjm : j.message_id = id
      · rw [if_pos hjm]
        apply List.filterMap_congr
        intro a _
        cases haf : a.filename with
        | none => simp [keyedInfo, Function.comp, haf]
        | some f => simp [keyedInfo, Function.comp, haf, hjm]
      · rw [if_neg hjm]
        apply List.filterMap_eq_nil_iff.mpr
        intro a _
        cases haf : a.filename with
        | none => simp [keyedInfo, Function.comp, haf]
        | some f => simp [keyedInfo, Function.comp, haf, hjm]
    · rw [if_neg hc]
      have hjm : ¬ j.message_id = id := by
        intro h
        rw [h] at hc
        exact hc (List.elem_iff.mpr hid)
      rw [if_neg hjm]
      rfl

/-- A message none of whose join rows point at it has the empty spec-level
attachment list. -/
theorem specAttachmentsFor_eq_nil (fs : FileSystem) (db : DBState) (id : Nat)
    (h : ∀ j ∈ db.message_attachment_join, j.message_id ≠ id) :
    specAttachmentsFor fs db id = [] := by
  rw [specAttachmentsFor, List.flatMap_eq_nil_iff]
  intro j hj
  rw [if_neg (h j hj)]

/-- Every record of the spec-level attachment list is witnessed by a join
row and an attachment row whose stored filename is that record's (non-null)
filename. -/
theorem mem_specAttachmentsFor (fs : FileSystem) (db : DBState) (id : Nat)
    (info : AttachmentInfo) (h : info ∈ specAttachmentsFor fs db id) :
    ∃ j ∈ db.message_attachment_join, j.message_id = id ∧
      ∃ a ∈ db.attachment, a.rowid = j.attachment_id ∧
        a.filename = some info.filename := by
  rw [specAttachmentsFor] at h
  obtain ⟨j, hj, hmem⟩ := List.mem_flatMap.mp h
  by_cases hjm : j.message_id = id
  · rw [if_pos hjm] at hmem
    obtain ⟨a, ha, hsome⟩ := List.mem_filterMap.mp hmem
    have haf := List.mem_filter.mp ha
    refine ⟨j, hj, hjm, a, haf.1, by simpa using haf.2, ?_⟩
    cases hfile : a.filename with
    | none => rw [hfile] at hsome; simp at hsome
    | some f =>
      rw [hfile] at hsome
      dsimp only at hsome
      by_cases hemp : f.isEmpty
      · rw [if_pos hemp] at hsome; simp at hsome
      · rw [if_neg hemp] at hsome
        have hmk : mkAttachmentInfo fs f a.mime_type = info := by
          injection hsome
        rw [← hmk, mkAttachmentInfo]
  · rw [if_neg hjm] at hmem
    simp at hmem

/-- Attachments of every processed message come from the batch-keyed map
and equal the spec-level list for its rowid. -/
theorem processRaw_attachments (fs : FileSystem) (db : DBState)
    (raws : List RawMessageRow) (m : MessageRow)
    (hm : m ∈ processRawMessages fs db raws) :
    m.attachments = specAttachmentsFor fs db m.rowid := by
  obtain ⟨raw, hraw, hrowid, _, hatt⟩ := mem_processRawMessages fs db raws m hm
  have hidmem : m.rowid ∈ raws.map (fun r => r.rowid) := by
    rw [hrowid]
    exact List.mem_map_of_mem _ hraw
  rw [hatt, loadAttachments_eq]
  rw [if_neg (by
    intro he
    rw [List.isEmpty_iff] at he
    rw [he] at hidmem
    simp at hidmem)]
  exact filterMap_keyedInfo_attachmentJoinRows fs db _ m.rowid hidmem

/-- List-level form of `processRaw_attachments`. -/
theorem processRaw_attachments_map (fs : FileSystem) (db : DBState)
    (raws : List RawMessageRow) :
    (processRawMessages fs db raws).map (fun m => m.attachments) =
      (processRawMessages fs db raws).map
        (fun m => specAttachmentsFor fs db m.rowid) := by
  apply List.map_congr_left
  intro m hm
  exact processRaw_attachments fs db raws m hm

/-- C9: in every query operation (Recent, Search, ConversationHistory),
loading attachments neither drops nor duplicates messages — the returned
rowid sequence is exactly that of the underlying ordered, limited query, so
a message joined to two attachments still appears exactly once; every
returned message's attachments list (always a list, never null, by the
shape of the embedding) is exactly the spec-level batch-keyed list for its
rowid; and a message with no attachment join rows gets the empty list. -/
theorem queryOps_attachments_spec (fs : FileSystem) (db : DBState)
    (limit : Nat) (term : String) (opts : HistoryOptions) (rid : Nat) :
    ((getRecentMessages fs db limit).map (fun m => m.rowid) =
      (((messageSelectRows db).insertionSort dateDesc).take limit).map
        (fun r => r.rowid)) ∧
    ((getRecentMessages fs db limit).map (fun m => m.attachments) =
      (getRecentMessages fs db limit).map
        (fun m => specAttachmentsFor fs db m.rowid)) ∧
    ((searchMessages fs db term limit).map (fun m => m.rowid) =
      ((((messageSelectRows db).filter (searchCond term)).insertionSort
        dateDesc).take limit).map (fun r => r.rowid)) ∧
    ((searchMessages fs db term limit).map (fun m => m.attachments) =
      (searchMessages fs db term limit).map
        (fun m => specAttachmentsFor fs db m.rowid)) ∧
    ((getChatMessages fs db opts).map (fun m => m.rowid) =
      ((((messageSelectRows db).filter (fun r =>
          (r.chat_id == some opts.chatId) &&
          participantsCond opts.participants r &&
          dateRangeCond opts.start opts.stop r)).insertionSort
        dateDesc).take opts.limit).map (fun r => r.rowid)) ∧
    ((getChatMessages fs db opts).map (fun m => m.attachments) =
      (getChatMessages fs db opts).map
        (fun m => specAttachmentsFor fs db m.rowid)) ∧
    ((∀ j ∈ db.message_attachment_join, j.message_id ≠ rid) →
      specAttachmentsFor fs db rid = []) := by
  refine ⟨?_, ?_, ?_, ?_, ?_, ?_, ?_⟩
  · rw [getRecentMessages, processRaw_map_rowid, toRaw_map_rowid]
  · exact processRaw_attachments_map fs db _
  · rw [searchMessages, processRaw_map_rowid, toRaw_map_rowid]
  · exact processRaw_attachments_map fs db _
  · rw [getChatMessages, processRaw_map_rowid, toRaw_map_rowid]
  · exact processRaw_attachments_map fs db _
  · exact specAttachmentsFor_eq_nil fs db rid

/-- C9, witness: the theorem applied at the concrete store with a
two-attachment message and an attachment-free message. -/
theorem queryOps_attachments_spec_witness :
    ((getRecentMessages fsW dbAtt 10).map (fun m => m.attachments) =
      (getRecentMessages fsW dbAtt 10).map
        (fun m => specAttachmentsFor fsW dbAtt m.rowid)) ∧
    ((getChatMessages fsW dbAtt { chatId := 1 }).map (fun m => m.rowid) =
      ((((messageSelectRows dbAtt).filter (fun r =>
          (r.chat_id == some (1 : Nat)) &&
          participantsCond none r &&
          dateRangeCond none none r)).insertionSort
        dateDesc).take 50).map (fun r => r.rowid)) ∧
    specAttachmentsFor fsW dbAtt 2 = [] := by
  have h := queryOps_attachments_spec fsW dbAtt 10 "x"
    { chatId := 1 } 2
  exact ⟨h.2.1, h.2.2.2.2.1, h.2.2.2.2.2.2 (by decide)⟩

/-- C10: every attachment record surfaced by the query operations has a
non-null stored filename — each one is witnessed by a join row and an
attachment row whose filename column holds exactly that (non-null) name —
and a join row with a null filename is silently omitted, so a message all
of whose attachment rows have null filenames gets the empty list. -/
theorem attachments_filename_non_null (fs : FileSystem) (db : DBState)
    (limit : Nat) (rid : Nat) :
    (∀ info ∈ specAttachmentsFor fs db rid,
      ∃ j ∈ db.message_attachment_join, j.message_id = rid ∧
        ∃ a ∈ db.attachment, a.rowid = j.attachment_id ∧
          a.filename = some info.filename) ∧
    ((∀ j ∈ db.message_attachment_join, j.message_id = rid →
        ∀ a ∈ db.attachment, a.rowid = j.attachment_id → a.filename = none) →
      specAttachmentsFor fs db rid = []) ∧
    ((getRecentMessages fs db limit).map (fun m => m.attachments) =
      (getRecentMessages fs db limit).map
        (fun m => specAttachmentsFor fs db m.rowid)) := by
  refine ⟨fun info hinfo => mem_specAttachmentsFor fs db rid info hinfo, ?_, ?_⟩
  · intro h
    rw [specAttachmentsFor, List.flatMap_eq_nil_iff]
    intro j hj
    by_cases hjm : j.message_id = rid
    · rw [if_pos hjm]
      apply List.filterMap_eq_nil_iff.mpr
      intro a ha
      have haf := List.mem_filter.mp ha
      rw [h j hj hjm a haf.1 (by simpa using haf.2)]
    · rw [if_neg hjm]
  · exact processRaw_attachments_map fs db _

/-- C10, witness: the theorem applied at the concrete store whose only
attachment join row has a null stored filename — the message's attachment
list is empty. -/
theorem attachments_filename_non_null_witness :
    specAttachmentsFor fsW dbNull 1 = [] ∧
    ((getRecentMessages fsW dbNull 10).map (fun m => m.attachments) =
      (getRecentMessages fsW dbNull 10).map
        (fun m => specAttachmentsFor fsW dbNull m.rowid)) := by
  have h := attachments_filename_non_null fsW dbNull 10 1
  exact ⟨h.2.1 (by decide), h.2.2⟩

/-- Every processed-pipeline imput row length is preserved. -/
theorem processRaw_length (fs : FileSystem) (db : DBState)
    (raws : List RawMessageRow) :
    (processRawMessages fs db raws).length = raws.length := by
  rw [processRawMessages, attachAttachments, hydrateAttributedBodyText]
  simp

/-- C8: the effective-body rule — for every message produced by the query
pipeline, stored plain text wins and is never overwritten; a null plain
text with a successfully decoding archived body takes the decoded text; a
null plain text with an absent payload, or one whose payload fails to
decode, stays null.  Stated on the hydration rule `hydratedText`, on the
hydration pass itself, and on the messages returned by `getRecentMessages`. -/
theorem effective_body (raws : List RawMessageRow) (fs : FileSystem)
    (db : DBState) (limit : Nat) (text : Option String)
    (ab : Option (List Nat)) :
    (∀ t, text = some t → hydratedText text ab = some t) ∧
    (∀ b s, text = none → ab = some b →
      extractTextFromAttributedBody (some b) = some s →
      hydratedText text ab = some s) ∧
    (text = none → ab = none → hydratedText text ab = none) ∧
    (∀ b, text = none → ab = some b →
      extractTextFromAttributedBody (some b) = none →
      hydratedText text ab = none) ∧
    List.Forall₂ (fun raw msg => msg.text = hydratedText raw.text raw.attributed_body)
      raws (hydrateAttributedBodyText raws) ∧
    (∀ m ∈ getRecentMessages fs db limit, ∃ r ∈ messageSelectRows db,
      m.rowid = r.rowid ∧ m.text = hydratedText r.text r.attributed_body) := by
  refine ⟨?_, ?_, ?_, ?_, ?_, ?_⟩
  · intro t h
    rw [h, hydratedText]
  · intro b s h1 h2 h3
    rw [h1, h2, hydratedText, h3]
  · intro h1 h2
    rw [h1, h2, hydratedText]
  · intro b h1 h2 h3
    rw [h1, h2, hydratedText, h3]
  · induction raws with
    | nil => exact List.Forall₂.nil
    | cons raw rest ih =>
      rw [hydrateAttributedBodyText, List.map_cons]
      exact List.Forall₂.cons rfl ih
  · intro m hm
    obtain ⟨raw, hraw, h1, h2, _⟩ :=
      mem_processRawMessages fs db _ m hm
    obtain ⟨r, hr, rfl⟩ := List.mem_map.mp hraw
    refine ⟨r, ?_, h1, h2⟩
    exact (List.mem_insertionSort dateDesc).mp (List.mem_of_mem_take hr)

/-- C8, witness: the effective-body rule applied at concrete columns — a
present plain text beats a decodable payload, a null text takes a
decodable payload's text, both-absent stays null, and an undecodable
payload (no marker) leaves a null text null. -/
theorem effective_body_witness :
    hydratedText (some "x") (some (specShortBuffer "hi")) = some "x" ∧
    hydratedText none (some (specShortBuffer "hi")) = some "hi" ∧
    hydratedText none none = (none : Option String) ∧
    hydratedText none (some [0, 9]) = none :=
  ⟨(effective_body [] fsW dbAtt 10 (some "x") (some (specShortBuffer "hi"))).1
      "x" rfl,
   (effective_body [] fsW dbAtt 10 none (some (specShortBuffer "hi"))).2.1
      _ "hi" rfl rfl (by decide),
   (effective_body [] fsW dbAtt 10 none none).2.2.1 rfl rfl,
   (effective_body [] fsW dbAtt 10 none (some [0, 9])).2.2.2.1
      _ rfl rfl (by decide)⟩

/-- C7, counterexample: the claim requires a message whose effective text
is null to be excluded from matches even when its raw archived-body bytes
contain the term; but `searchMessages` matches
`m.text LIKE ? OR m.attributedBody LIKE ?`, so the null-text message whose
payload bytes spell "zebra" is returned by the search for "zebra". -/
theorem searchMessages_matches_raw_payload :
    ¬ (∀ m ∈ searchMessages fsW dbPayload "zebra" 50, m.text ≠ none) := by
  decide

/-- C7, amended: `searchMessages` is a case-insensitive (ASCII) substring
match against the message's plain text OR its raw archived-body bytes,
newest-first, capped at `limit`: at most `limit` results; every result
corresponds to a joined row satisfying the text-or-payload match; every
matching row is returned when the match count fits the cap; results are
ordered by descending date; "hello" and "Hello" both match a stored
"Hello everyone!"; and a message whose effective text is null is still
returned when its raw archived-body bytes contain the term (payload-aware
search). -/
theorem searchMessages_spec (fs : FileSystem) (db : DBState) (term : String)
    (limit : Nat) :
    (searchMessages fs db term limit).length ≤ limit ∧
    (∀ m ∈ searchMessages fs db term limit, ∃ r ∈ messageSelectRows db,
      m.rowid = r.rowid ∧ searchCond term r = true) ∧
    (∀ r ∈ messageSelectRows db, searchCond term r = true →
      ((messageSelectRows db).filter (searchCond term)).length ≤ limit →
      ∃ m ∈ searchMessages fs db term limit, m.rowid = r.rowid) ∧
    List.Sorted (fun a b : ℚ => b ≤ a)
      ((searchMessages fs db term limit).map (fun m => m.date)) ∧
    (searchMessages fsW dbHello "hello" 50).map (fun m => m.guid) = ["g1"] ∧
    (searchMessages fsW dbHello "Hello" 50).map (fun m => m.guid) = ["g1"] ∧
    (searchMessages fsW dbPayload "zebra" 50).map (fun m => (m.rowid, m.text)) =
      [(1, none)] := by
  refine ⟨?_, ?_, ?_, ?_, by decide, by decide, by decide⟩
  · rw [searchMessages, processRaw_length, List.length_map]
    exact List.length_take_le _ _
  · intro m hm
    obtain ⟨raw, hraw, h1, _, _⟩ := mem_processRawMessages fs db _ m hm
    obtain ⟨r, hr, rfl⟩ := List.mem_map.mp hraw
    have hr2 := (List.mem_insertionSort dateDesc).mp (List.mem_of_mem_take hr)
    have hr3 := List.mem_filter.mp hr2
    exact ⟨r, hr3.1, h1, hr3.2⟩
  · intro r hr hcond hlen
    have hmemf : r ∈ (messageSelectRows db).filter (searchCond term) :=
      List.mem_filter.mpr ⟨hr, hcond⟩
    have hlen2 :
        (((messageSelectRows db).filter (searchCond term)).insertionSort
          dateDesc).length ≤ limit := by
      rw [List.length_insertionSort]
      exact hlen
    have htake :
        (((messageSelectRows db).filter (searchCond term)).insertionSort
            dateDesc).take limit =
          ((messageSelectRows db).filter (searchCond term)).insertionSort
            dateDesc :=
      List.take_of_length_le hlen2
    have hmem2 : r.rowid ∈ (searchMessages fs db term limit).map
        (fun m => m.rowid) := by
      rw [searchMessages, processRaw_map_rowid, toRaw_map_rowid, htake]
      exact List.mem_map_of_mem _ ((List.mem_insertionSort dateDesc).mpr hmemf)
    obtain ⟨m, hm, hrid⟩ := List.mem_map.mp hmem2
    exact ⟨m, hm, hrid⟩
  · have hsorted :
        List.Sorted dateDesc
          ((((messageSelectRows db).filter (searchCond term)).insertionSort
            dateDesc).take limit) :=
      List.Pairwise.sublist (List.take_sublist _ _)
        (List.sorted_insertionSort dateDesc _)
    have hmap : List.Sorted (fun a b : ℚ => b ≤ a)
        (((((messageSelectRows db).filter (searchCond term)).insertionSort
          dateDesc).take limit).map (fun r => r.date)) :=
      List.Pairwise.map (fun r : SelectedRow => r.date)
        (fun a b hab => hab) hsorted
    rw [searchMessages, processRaw_map_date, toRaw_map_date]
    exact hmap

/-- C7, witness: the search theorem applied at the "Hello everyone!" store
for the term "hello": the cap holds, the match is returned (completeness
applied to the store's single joined row), and "Hello" matches too. -/
theorem searchMessages_spec_witness :
    (searchMessages fsW dbHello "hello" 50).length ≤ 50 ∧
    (∃ m ∈ searchMessages fsW dbHello "hello" 50, m.rowid = 1) ∧
    (searchMessages fsW dbHello "Hello" 50).map (fun m => m.guid) = ["g1"] := by
  have h := searchMessages_spec fsW dbHello "hello" 50
  refine ⟨h.1, ?_, h.2.2.2.2.2.1⟩
  obtain ⟨m, hm, hrid⟩ :=
    h.2.2.1 ((messageSelectRows dbHello).head (by decide))
      (List.head_mem _) (by decide) (by decide)
  exact ⟨m, hm, hrid.trans (by decide)⟩

/-- Membership in the joined rows of one message. -/
theorem mem_selectRowsFor (db : DBState) (m : MessageTableRow) (r : SelectedRow) :
    r ∈ selectRowsFor db m ↔
      ((db.chat_message_join.filter (fun j => j.message_id == m.rowid) = [] ∧
        r = selectRowFor db m none none none) ∨
       (∃ j ∈ db.chat_message_join.filter (fun j => j.message_id == m.rowid),
         r = selectRowFor db m
           ((db.chat.find? (fun c => c.rowid == j.chat_id)).bind
             (fun cr => cr.display_name))
           ((db.chat.find? (fun c => c.rowid == j.chat_id)).map
             (fun cr => cr.chat_identifier))
           (some j.chat_id))) := by
  rw [selectRowsFor]
  cases hjs : db.chat_message_join.filter (fun j => j.message_id == m.rowid) with
  | nil => simp
  | cons x xs =>
    constructor
    · intro h
      obtain ⟨j, hj, hr⟩ := List.mem_map.mp h
      exact Or.inr ⟨j, hj, hr.symm⟩
    · rintro (⟨hcontra, _⟩ | ⟨j, hj, hr⟩)
      · exact absurd hcontra (List.cons_ne_nil x xs)
      · exact List.mem_map.mpr ⟨j, hj, hr.symm⟩

/-- Every joined row of a message carries that message's rowid. -/
theorem rowid_of_mem_selectRowsFor (db : DBState) (m : MessageTableRow)
    (r : SelectedRow) (h : r ∈ selectRowsFor db m) : r.rowid = m.rowid := by
  rw [mem_selectRowsFor] at h
  rcases h with ⟨_, rfl⟩ | ⟨j, _, rfl⟩ <;> rfl

/-- The participant filter on a joined row, read off the message row. -/
theorem participantsCond_selectRow (popts : Option (List String))
    (db : DBState) (m : MessageTableRow) (dn ci : Option String)
    (cid : Option Nat) :
    participantsCond popts (selectRowFor db m dn ci cid) = true ↔
      (∀ ps, popts = some ps → ps ≠ [] →
        ∃ hid, resolvedHandle db m = some hid ∧ hid ∈ ps) := by
  cases popts with
  | none => simp [participantsCond]
  | some ps =>
    by_cases he : ps.isEmpty
    · rw [List.isEmpty_iff] at he
      subst he
      simp [participantsCond]
    · have hne : ps ≠ [] := by
        rw [List.isEmpty_iff] at he
        exact he
      simp only [participantsCond, selectRowFor, if_neg he]
      cases hh : resolvedHandle db m with
      | none =>
        constructor
        · intro h
          simp at h
        · intro hR
          obtain ⟨hid, hc, _⟩ := hR ps rfl hne
          simp at hc
      | some hid =>
        constructor
        · intro h
          intro ps2 hps2 _
          obtain rfl : ps = ps2 := by injection hps2
          exact ⟨hid, rfl, List.elem_iff.mp h⟩
        · intro hR
          obtain ⟨hid2, hc, hmem⟩ := hR ps rfl hne
          obtain rfl : hid = hid2 := Option.some.inj hc
          exact List.elem_iff.mpr hmem

/-- The time-range filter on a joined row, read off the message row. -/
theorem dateRangeCond_selectRow (start stop : Option ℚ) (db : DBState)
    (m : MessageTableRow) (dn ci : Option String) (cid : Option Nat) :
    dateRangeCond start stop (selectRowFor db m dn ci cid) = true ↔
      ((∀ s, start = some s → dateToAppleTimestamp s ≤ m.date) ∧
       (∀ e, stop = some e → m.date < dateToAppleTimestamp e)) := by
  cases start with
  | none =>
    cases stop with
    | none => simp [dateRangeCond]
    | some e => simp [dateRangeCond, selectRowFor]
  | some s =>
    cases stop with
    | none => simp [dateRangeCond, selectRowFor]
    | some e => simp [dateRangeCond, selectRowFor, and_comm]

/-- A joined row of message `m` passes the polling `WHERE` clause exactly
when `m` satisfies the watermark, participant, and time-range conditions
and — under a chat filter — the row's joined chat is the filtered one. -/
theorem pollCond_selectRow (opts : PollOptions) (w : Nat) (db : DBState)
    (m : MessageTableRow) (dn ci : Option String) (cid : Option Nat) :
    pollCond opts w (selectRowFor db m dn ci cid) = true ↔
      (w < m.rowid ∧
       (∀ c, opts.chatId = some c → cid = some c) ∧
       (∀ ps, opts.participants = some ps → ps ≠ [] →
         ∃ hid, resolvedHandle db m = some hid ∧ hid ∈ ps) ∧
       (∀ s, opts.start = some s → dateToAppleTimestamp s ≤ m.date) ∧
       (∀ e, opts.stop = some e → m.date < dateToAppleTimestamp e)) := by
  rw [pollCond]
  simp only [Bool.and_eq_true, decide_eq_true_eq]
  constructor
  · rintro ⟨⟨⟨h1, h2⟩, h3⟩, h4⟩
    have hp := (participantsCond_selectRow opts.participants db m dn ci cid).mp h3
    have hd := (dateRangeCond_selectRow opts.start opts.stop db m dn ci cid).mp h4
    refine ⟨h1, ?_, hp, hd.1, hd.2⟩
    intro c hc
    rw [hc] at h2
    simpa using h2
  · rintro ⟨h1, h2, h3, h4, h5⟩
    refine ⟨⟨⟨h1, ?_⟩, (participantsCond_selectRow opts.participants db m dn ci cid).mpr h3⟩,
      (dateRangeCond_selectRow opts.start opts.stop db m dn ci cid).mpr ⟨h4, h5⟩⟩
    cases hc : opts.chatId with
    | none => rfl
    | some c => simpa using h2 c hc

/-- A message contributes a joined row passing the polling `WHERE` clause
exactly when it satisfies the spec-level polling predicate. -/
theorem exists_pollCond_iff (db : DBState) (opts : PollOptions) (w : Nat)
    (m : MessageTableRow) :
    (∃ r ∈ selectRowsFor db m, pollCond opts w r = true) ↔
      specMatchesPoll db opts w m := by
  constructor
  · rintro ⟨r, hr, hc⟩
    rw [mem_selectRowsFor] at hr
    rcases hr with ⟨hjs, rfl⟩ | ⟨j, hj, rfl⟩
    · obtain ⟨h1, h2, h3, h4, h5⟩ := (pollCond_selectRow _ _ _ _ _ _ _).mp hc
      refine ⟨h1, ?_, h3, h4, h5⟩
      intro c hcid
      exact absurd (h2 c hcid) (by simp)
    · obtain ⟨h1, h2, h3, h4, h5⟩ := (pollCond_selectRow _ _ _ _ _ _ _).mp hc
      refine ⟨h1, ?_, h3, h4, h5⟩
      intro c hcid
      have hmemf := List.mem_filter.mp hj
      refine ⟨j, hmemf.1, by simpa using hmemf.2, ?_⟩
      have := h2 c hcid
      exact Option.some.inj this
  · rintro ⟨h1, h2, h3, h4, h5⟩
    cases hc : opts.chatId with
    | none =>
      cases hjs : db.chat_message_join.filter (fun j => j.message_id == m.rowid) with
      | nil =>
        refine ⟨selectRowFor db m none none none, ?_, ?_⟩
        · rw [mem_selectRowsFor]
          exact Or.inl ⟨hjs, rfl⟩
        · refine (pollCond_selectRow _ _ _ _ _ _ _).mpr ⟨h1, ?_, h3, h4, h5⟩
          intro c hcid
          rw [hc] at hcid
          exact absurd hcid (by simp)
      | cons x xs =>
        refine ⟨selectRowFor db m
          ((db.chat.find? (fun c => c.rowid == x.chat_id)).bind
            (fun cr => cr.display_name))
          ((db.chat.find? (fun c => c.rowid == x.chat_id)).map
            (fun cr => cr.chat_identifier))
          (some x.chat_id), ?_, ?_⟩
        · rw [mem_selectRowsFor]
          exact Or.inr ⟨x, by rw [hjs]; exact List.mem_cons_self x xs, rfl⟩
        · refine (pollCond_selectRow _ _ _ _ _ _ _).mpr ⟨h1, ?_, h3, h4, h5⟩
          intro c hcid
          rw [hc] at hcid
          exact absurd hcid (by simp)
    | some c =>
      obtain ⟨j, hj, hjm, hjc⟩ := h2 c hc
      have hjf : j ∈ db.chat_message_join.filter (fun j => j.message_id == m.rowid) :=
        List.mem_filter.mpr ⟨hj, by simpa using hjm⟩
      refine ⟨selectRowFor db m
        ((db.chat.find? (fun cr => cr.rowid == j.chat_id)).bind
          (fun cr => cr.display_name))
        ((db.chat.find? (fun cr => cr.rowid == j.chat_id)).map
          (fun cr => cr.chat_identifier))
        (some j.chat_id), ?_, ?_⟩
      · rw [mem_selectRowsFor]
        exact Or.inr ⟨j, hjf, rfl⟩
      · refine (pollCond_selectRow _ _ _ _ _ _ _).mpr ⟨h1, ?_, h3, h4, h5⟩
        intro c2 hcid2
        rw [hc] at hcid2
        obtain rfl : c = c2 := Option.some.inj hcid2
        rw [hjc]

/-- The rowid column of a poll is that of the ordered, filtered join. -/
theorem pollNewMessages_map_rowid (fs : FileSystem) (db : DBState) (w : Nat)
    (opts : PollOptions) :
    (pollNewMessages fs db w opts).map (fun m => m.rowid) =
      (((messageSelectRows db).filter (pollCond opts w)).insertionSort
        rowidAsc).map (fun r => r.rowid) := by
  rw [pollNewMessages, pollRawRows, processRaw_map_rowid, toRaw_map_rowid]

/-- C1: one polling step returns exactly the messages whose row identifier
strictly exceeds the watermark, subject to the optional chat, participant,
and time-range filters (a rowid is in the poll's output iff some message
row with that rowid satisfies the spec-level polling predicate), in
ascending rowid order; the watch loop leaves the watermark unchanged on an
empty batch; and concretely, with messages 1–4 seeded and watermark 2 the
poll returns exactly rowids 3 and 4 in that order, the watch step advances
the watermark to 4, and a subsequent poll at watermark 4 returns an empty
batch leaving the watermark at 4. -/
theorem pollNewMessages_spec (fs : FileSystem) (db : DBState) (w : Nat)
    (opts : PollOptions) :
    (∀ rid, rid ∈ (pollNewMessages fs db w opts).map (fun m => m.rowid) ↔
      ∃ m ∈ db.message, m.rowid = rid ∧ specMatchesPoll db opts w m) ∧
    List.Sorted (fun a b : Nat => a ≤ b)
      ((pollNewMessages fs db w opts).map (fun m => m.rowid)) ∧
    (pollNewMessages fs db w opts = [] → (watchStep fs db w opts).2 = w) ∧
    ((pollNewMessages fsW db4 2 {}).map (fun m => m.rowid) = [3, 4] ∧
     (watchStep fsW db4 2 {}).2 = 4 ∧
     pollNewMessages fsW db4 4 {} = [] ∧
     (watchStep fsW db4 4 {}).2 = 4) := by
  refine ⟨?_, ?_, ?_, by decide, by decide, by decide, by decide⟩
  · intro rid
    rw [pollNewMessages_map_rowid]
    constructor
    · intro h
      obtain ⟨r, hrmem, hrid⟩ := List.mem_map.mp h
      have hrf := (List.mem_insertionSort rowidAsc).mp hrmem
      have hrf2 := List.mem_filter.mp hrf
      rw [messageSelectRows] at hrf2
      obtain ⟨m, hm, hrrows⟩ := List.mem_flatMap.mp hrf2.1
      refine ⟨m, hm, ?_, ?_⟩
      · rw [← hrid, rowid_of_mem_selectRowsFor db m r hrrows]
      · exact (exists_pollCond_iff db opts w m).mp ⟨r, hrrows, hrf2.2⟩
    · intro h
      obtain ⟨m, hm, hmrid, hspec⟩ := h
      obtain ⟨r, hr, hcond⟩ := (exists_pollCond_iff db opts w m).mpr hspec
      apply List.mem_map.mpr
      refine ⟨r, ?_, ?_⟩
      · apply (List.mem_insertionSort rowidAsc).mpr
        apply List.mem_filter.mpr
        refine ⟨?_, hcond⟩
        rw [messageSelectRows]
        exact List.mem_flatMap.mpr ⟨m, hm, hr⟩
      · rw [rowid_of_mem_selectRowsFor db m r hr, hmrid]
  · have hsorted := List.sorted_insertionSort rowidAsc
      ((messageSelectRows db).filter (pollCond opts w))
    have hmap : List.Sorted (fun a b : Nat => a ≤ b)
        ((((messageSelectRows db).filter (pollCond opts w)).insertionSort
          rowidAsc).map (fun r => r.rowid)) :=
      List.Pairwise.map (fun r : SelectedRow => r.rowid)
        (fun a b hab => hab) hsorted
    rw [pollNewMessages_map_rowid]
    exact hmap
  · intro h
    rw [watchStep]
    simp [h]

/-- C1, witness: the polling theorem applied at the concrete four-message
store — the empty poll at watermark 4 leaves the watermark unchanged
(hypothesis discharged by evaluation), and the membership characterisation
instantiated at rowid 3 with watermark 2. -/
theorem pollNewMessages_spec_witness :
    (watchStep fsW db4 4 {}).2 = 4 ∧
    (3 ∈ (pollNewMessages fsW db4 2 {}).map (fun m => m.rowid) ↔
      ∃ m ∈ db4.message, m.rowid = 3 ∧ specMatchesPoll db4 {} 2 m) := by
  have h4 := pollNewMessages_spec fsW db4 4 {}
  have h2 := pollNewMessages_spec fsW db4 2 {}
  exact ⟨h4.2.2.1 (by decide), h2.1 3⟩

end Aimc
